import Mathlib

/-!
# Mirall `SocketApi` (src/mirall/socketapi.cpp)

A shallow embedding of the local-socket command server of the sync client:
the constructor, the listener list with `slotNewConnection` and
`onLostConnection`, the line reader and dispatcher `slotReadSocket`, the two
status handlers `command_RETRIEVE_FOLDER_STATUS` and
`command_RETRIEVE_FILE_STATUS`, `sendMessage`, `broadcastMessage` and
`slotSyncStateChanged`.

Modelling conventions.

* A `QString` is the list of its characters, a `QByteArray` the list of its
  bytes.  The codec of the Qt library, `QString::fromUtf8` and
  `QString::toUtf8`, is a pair of fields of `Env`: every theorem holds for
  every codec.
* A `QLocalSocket*` is a natural number (the identity of the connection); a
  pointer that may be null is an `Option`.
* The collaborators reached through `FolderMan::instance()`, `Folder` and
  `QDir` are the fields of `Env`.
* Every effect on a collaborator or a socket is recorded, in program order, in
  a list of `Event`s.  `qDebug()` output is not recorded.
-/

namespace Mirall

/-! ## Qt strings -/

/-- A `QString`: the sequence of its characters. -/
abbrev QString := List Char

/-- A `QByteArray`: the sequence of its bytes, each a number below 256. -/
abbrev QByteArray := List Nat

/-- The identity of a `QLocalSocket` object. -/
abbrev QLocalSocket := Nat

/-- The function `QChar::isSpace` of Qt 4: the characters U+0009 to U+000D and
the characters of the Unicode categories Zs, Zl and Zp. -/
def isSpace (c : Char) : Bool :=
  let ucs := c.toNat
  (9 ≤ ucs && ucs ≤ 13) || ucs == 0x20 || ucs == 0xA0 || ucs == 0x1680 || ucs == 0x180E ||
    (0x2000 ≤ ucs && ucs ≤ 0x200A) || ucs == 0x2028 || ucs == 0x2029 || ucs == 0x202F ||
    ucs == 0x205F || ucs == 0x3000

/-- The function `QString::trimmed`: whitespace removed from the start and from
the end. -/
def trimmed (s : QString) : QString :=
  (s.dropWhile isSpace).rdropWhile isSpace

/-- The function `QString::split(sep)` with the default `KeepEmptyParts`: the
pieces between the occurrences of `sep`; never the empty list. -/
def split (sep : Char) : QString → List QString
  | [] => [[]]
  | c :: cs =>
    if c = sep then [] :: split sep cs
    else
      match split sep cs with
      | [] => [[c]]
      | piece :: pieces => (c :: piece) :: pieces

/-- The function `QList::first` on a list of strings that is not empty. -/
def first (l : List QString) : QString :=
  l.headD []

/-- The function `QString::remove(pos, len)` for a position that is not
negative: nothing happens for a position outside the string, the string is cut
at `pos` when `pos + len` reaches its end, and otherwise `len` characters are
taken out. -/
def remove (s : QString) (pos len : Nat) : QString :=
  if s.length ≤ pos then s
  else if s.length - pos ≤ len then s.take pos
  else s.take pos ++ s.drop (pos + len)

/-- The function `QString::mid(pos)`: the characters from position `pos` on,
the empty string when `pos` is past the end. -/
def mid (s : QString) (pos : Nat) : QString :=
  s.drop pos

/-- The function `QString::toAscii` without a codec for C strings (it is
`toLatin1`): the code of each character, a question mark (63) for a character
outside Latin-1. -/
def toAscii (s : QString) : QByteArray :=
  s.map (fun c => if c.toNat < 256 then c.toNat else 63)

/-- The conversion `QByteArray::operator const char*`: what a function that
takes a C string reads, the bytes before the first NUL. -/
def constData (bytes : QByteArray) : QByteArray :=
  bytes.takeWhile (fun b => b != 0)

/-- A string literal of the C++ source as a C string. -/
def latin1 (literal : String) : QByteArray :=
  literal.toList.map Char.toNat

/-! ## Collaborators -/

/-- Modelled from the spec: the enumeration `SyncFileStatus` (its declaration is
in a header that is not part of the sources).  The code names
`FILE_STATUS_SYNC` and `FILE_STATUS_STAT_ERROR`; every other value is
`other n`. -/
inductive SyncFileStatus where
  | FILE_STATUS_SYNC
  | FILE_STATUS_STAT_ERROR
  | other (n : Nat)
  deriving DecidableEq, Repr

open SyncFileStatus

/-- Modelled from the spec: a managed `Folder` (folder.h is not part of the
sources), with the three members the handlers use: the root path, the
single-file status and the recursive subtree status of a path relative to the
root. -/
structure Folder where
  path : QString
  fileStatus : QString → SyncFileStatus
  recursiveFolderStatus : QString → SyncFileStatus

/-- One entry of a directory, as `QDir` sees it. -/
structure QFileInfo where
  fileName : QString
  isFile : Bool
  isDir : Bool
  isHidden : Bool
  deriving DecidableEq, Repr

/-- The two filter values the handlers pass to `QDir::entryList`. -/
inductive Filters where
  | Files
  | AllDirs_NoDotAndDotDot
  deriving DecidableEq, Repr

/-- The world around the server: `FolderMan::instance()->folderForPath`, the
content of each directory (with its entries `.` and `..`, in the order in
which `QDir` lists them), `QDir(dir).absoluteFilePath(name)`, and the codec
`QString::fromUtf8` and `QString::toUtf8`. -/
structure Env where
  folderForPath : QString → Option Folder
  entries : QString → List QFileInfo
  absoluteFilePath : QString → QString → QString
  fromUtf8 : QByteArray → QString
  toUtf8 : QString → QByteArray

/-- Whether a file name is `.` or `..`. -/
def isDotOrDotDot (name : QString) : Bool :=
  name == ['.'] || name == ['.', '.']

/-- The function `QDir::entryList(filters)` on the content of a directory:
`QDir::Files` keeps the files, `QDir::AllDirs | QDir::NoDotAndDotDot` keeps the
directories other than `.` and `..`; without `QDir::Hidden` a hidden entry is
left out. -/
def entryList (content : List QFileInfo) : Filters → List QString
  | Filters.Files =>
    (content.filter (fun e => e.isFile && !e.isHidden)).map QFileInfo.fileName
  | Filters.AllDirs_NoDotAndDotDot =>
    (content.filter
      (fun e => e.isDir && !e.isHidden && !isDotOrDotDot e.fileName)).map QFileInfo.fileName

/-! ## The meta-object -/

/-- Modelled from the spec: the methods of the meta-object of `SocketApi`
(socketapi.h is not part of the sources): the four of `QObject`, the slots
that the constructor and `slotNewConnection` connect, and the two commands of
the wire protocol. -/
inductive Method where
  | destroyed_QObject
  | destroyed
  | deleteLater
  | _q_reregisterTimers
  | slotNewConnection
  | onLostConnection
  | slotReadSocket
  | slotSyncStateChanged
  | command_RETRIEVE_FOLDER_STATUS
  | command_RETRIEVE_FILE_STATUS
  deriving DecidableEq, Repr

/-- The normalized signature of a method. -/
def Method.signature : Method → QByteArray
  | .destroyed_QObject => latin1 "destroyed(QObject*)"
  | .destroyed => latin1 "destroyed()"
  | .deleteLater => latin1 "deleteLater()"
  | ._q_reregisterTimers => latin1 "_q_reregisterTimers(void*)"
  | .slotNewConnection => latin1 "slotNewConnection()"
  | .onLostConnection => latin1 "onLostConnection()"
  | .slotReadSocket => latin1 "slotReadSocket()"
  | .slotSyncStateChanged => latin1 "slotSyncStateChanged(QString)"
  | .command_RETRIEVE_FOLDER_STATUS =>
    latin1 "command_RETRIEVE_FOLDER_STATUS(QString,QLocalSocket*)"
  | .command_RETRIEVE_FILE_STATUS =>
    latin1 "command_RETRIEVE_FILE_STATUS(QString,QLocalSocket*)"

/-- The method table, in index order. -/
def methods : List Method :=
  [.destroyed_QObject, .destroyed, .deleteLater, ._q_reregisterTimers, .slotNewConnection,
   .onLostConnection, .slotReadSocket, .slotSyncStateChanged,
   .command_RETRIEVE_FOLDER_STATUS, .command_RETRIEVE_FILE_STATUS]

/-- The search of `QMetaObject::indexOfMethod` from index `i` on. -/
def indexOfMethodFrom (signature : QByteArray) : List Method → Nat → Int
  | [], _ => -1
  | m :: ms, i =>
    if m.signature = signature then (i : Int) else indexOfMethodFrom signature ms (i + 1)

/-- The function `QMetaObject::indexOfMethod`: the index of the method with this
signature, `-1` when there is none. -/
def indexOfMethod (signature : QByteArray) : Int :=
  indexOfMethodFrom signature methods 0

/-- The method at an index of the method table. -/
def methodAt (index : Int) : Option Method :=
  if index < 0 then none else methods.get? index.toNat

/-! ## Effects -/

/-- What the server does to its collaborators and to its sockets. -/
inductive Event where
  -- a handler is entered through `QMetaObject::invokeMethod`
  | invoke (method : Method) (argument : QString) (socket : QLocalSocket)
  -- the call `FolderMan::instance()->folderForPath(path)`
  | folderForPath (path : QString)
  -- the call `QDir(dir).entryList(filters)`
  | entryList (dir : QString) (filters : Filters)
  -- the call `folder->fileStatus(file)` on the folder with root `folder`
  | fileStatus (folder : QString) (file : QString)
  -- the call `folder->recursiveFolderStatus(dir)` on the folder with root `folder`
  | recursiveFolderStatus (folder : QString) (dir : QString)
  -- the call `socket->write(data)`
  | write (socket : QLocalSocket) (data : QByteArray)
  deriving DecidableEq, Repr

/-- The string `"NOP"`. -/
def NOP : QString := "NOP".toList

/-- The string `"NEED_SYNC"`. -/
def NEED_SYNC : QString := "NEED_SYNC".toList

/-- The string `"OK"`. -/
def OK : QString := "OK".toList

/-- The function `SocketApi::sendMessage`: the message and a line feed are
written to the socket. -/
def sendMessage (env : Env) (socket : QLocalSocket) (message : QString) : List Event :=
  let localMessage := message
  [Event.write socket (env.toUtf8 (localMessage ++ "\n".toList))]

/-- The loop over `fileEntries` in `command_RETRIEVE_FOLDER_STATUS`: the status
string it leaves (empty when every file is in sync) and the status queries it
makes; it stops at the first file that is not in sync. -/
def scanFiles (env : Env) (folder : Folder) (dir : QString) :
    List QString → QString × List Event
  | [] => ([], [])
  | file :: rest =>
    let absoluteFilePath := env.absoluteFilePath dir file
    let relative := mid absoluteFilePath folder.path.length
    let fileStatus := folder.fileStatus relative
    if fileStatus ≠ FILE_STATUS_SYNC then
      (NEED_SYNC, [Event.fileStatus folder.path relative])
    else
      ((scanFiles env folder dir rest).1,
        Event.fileStatus folder.path relative :: (scanFiles env folder dir rest).2)

/-- The loop over `dirEntries` in `command_RETRIEVE_FOLDER_STATUS`: the status
string it leaves (empty when every subtree is in sync) and the status queries
it makes; it stops at the first subtree that is not in sync. -/
def scanDirs (env : Env) (folder : Folder) (dir : QString) :
    List QString → QString × List Event
  | [] => ([], [])
  | entry :: rest =>
    let absoluteFilePath := env.absoluteFilePath dir entry
    let relative := mid absoluteFilePath folder.path.length
    let sfs := folder.recursiveFolderStatus relative
    if sfs ≠ FILE_STATUS_SYNC then
      (NEED_SYNC, [Event.recursiveFolderStatus folder.path relative])
    else
      ((scanDirs env folder dir rest).1,
        Event.recursiveFolderStatus folder.path relative :: (scanDirs env folder dir rest).2)

/-- The status string of `command_RETRIEVE_FOLDER_STATUS` for a resolved folder
and the events of its two scans: the files first, the subdirectories only when
the status string is still empty, and `OK` when it is empty after both. -/
def folderStatusString (env : Env) (folder : Folder) (argument : QString) :
    QString × List Event :=
  let fileEntries := entryList (env.entries argument) Filters.Files
  let files := scanFiles env folder argument fileEntries
  let afterFiles := Event.entryList argument Filters.Files :: files.2
  if files.1.isEmpty then
    let dirEntries := entryList (env.entries argument) Filters.AllDirs_NoDotAndDotDot
    let dirs := scanDirs env folder argument dirEntries
    let afterDirs :=
      afterFiles ++ Event.entryList argument Filters.AllDirs_NoDotAndDotDot :: dirs.2
    if dirs.1.isEmpty then (OK, afterDirs) else (dirs.1, afterDirs)
  else (files.1, afterFiles)

/-- The function `SocketApi::command_RETRIEVE_FOLDER_STATUS`. -/
def command_RETRIEVE_FOLDER_STATUS (env : Env) (argument : QString)
    (socket : Option QLocalSocket) : List Event :=
  match socket with
  | none => []
  | some socket =>
    match env.folderForPath argument with
    | none =>
      let statusString := NOP
      let message := "STATUS:".toList ++ statusString ++ [':'] ++ argument
      Event.folderForPath argument :: sendMessage env socket message
    | some folder =>
      let status := folderStatusString env folder argument
      let message := "STATUS:".toList ++ status.1 ++ [':'] ++ argument
      Event.folderForPath argument :: status.2 ++ sendMessage env socket message

/-- The status string of `command_RETRIEVE_FILE_STATUS` for a resolved folder and
the status query it makes. -/
def fileStatusString (folder : Folder) (argument : QString) : QString × List Event :=
  let relative := mid argument folder.path.length
  let fileStatus := folder.fileStatus relative
  if fileStatus ≠ FILE_STATUS_SYNC then
    (NEED_SYNC, [Event.fileStatus folder.path relative])
  else (OK, [Event.fileStatus folder.path relative])

/-- The function `SocketApi::command_RETRIEVE_FILE_STATUS`. -/
def command_RETRIEVE_FILE_STATUS (env : Env) (argument : QString)
    (socket : Option QLocalSocket) : List Event :=
  match socket with
  | none => []
  | some socket =>
    match env.folderForPath argument with
    | none =>
      let statusString := NOP
      let message := "STATUS:".toList ++ statusString ++ [':'] ++ argument
      Event.folderForPath argument :: sendMessage env socket message
    | some folder =>
      let status := fileStatusString folder argument
      let message := "STATUS:".toList ++ status.1 ++ [':'] ++ argument
      Event.folderForPath argument :: status.2 ++ sendMessage env socket message

/-! ## Reading and dispatching -/

/-- The call `QMetaObject::invokeMethod(this, member, Q_ARG(QString, argument),
Q_ARG(QLocalSocket*, socket))`: the method named `member` with the parameter
types `QString` and `QLocalSocket*` is looked up and run; nothing happens when
there is none. -/
def invokeMethod (env : Env) (member : QByteArray) (argument : QString)
    (socket : QLocalSocket) : List Event :=
  let signature := member ++ latin1 "(" ++ latin1 "QString" ++ latin1 "," ++
    latin1 "QLocalSocket*" ++ latin1 ")"
  match methodAt (indexOfMethod signature) with
  | some Method.command_RETRIEVE_FOLDER_STATUS =>
    Event.invoke Method.command_RETRIEVE_FOLDER_STATUS argument socket ::
      command_RETRIEVE_FOLDER_STATUS env argument (some socket)
  | some Method.command_RETRIEVE_FILE_STATUS =>
    Event.invoke Method.command_RETRIEVE_FILE_STATUS argument socket ::
      command_RETRIEVE_FILE_STATUS env argument (some socket)
  | _ => []

/-- The body of the loop of `slotReadSocket` for one line read from the
socket. -/
def processLine (env : Env) (socket : QLocalSocket) (raw : QByteArray) : List Event :=
  let line := trimmed (env.fromUtf8 raw)
  let command := first (split ':' line)
  let function := "command_".toList ++ command
  let functionWithArguments := function ++ "(QString,QLocalSocket*)".toList
  let indexOfMethod := indexOfMethod (constData (toAscii functionWithArguments))
  let argument := trimmed (remove line 0 (command.length + 1))
  if indexOfMethod ≠ -1 then
    invokeMethod env (constData (toAscii function)) argument socket
  else []

/-- The function `QIODevice::canReadLine`: a complete line is buffered, that is,
the buffer holds a line feed (the byte 10). -/
def canReadLine (buffer : QByteArray) : Bool :=
  buffer.contains 10

/-- The function `QIODevice::readLine`: the buffered data up to and with the
first line feed (all of it when there is none), and what stays buffered. -/
def readLine : QByteArray → QByteArray × QByteArray
  | [] => ([], [])
  | c :: cs =>
    if c = 10 then ([c], cs)
    else (c :: (readLine cs).1, (readLine cs).2)

/-- The loop `while (socket->canReadLine())` of `slotReadSocket`, run for at
most `fuel` lines: what stays buffered and the events. -/
def slotReadSocketLoop (env : Env) (socket : QLocalSocket) :
    Nat → QByteArray → QByteArray × List Event
  | 0, buffer => (buffer, [])
  | fuel + 1, buffer =>
    if canReadLine buffer then
      let events := processLine env socket (readLine buffer).1
      let later := slotReadSocketLoop env socket fuel (readLine buffer).2
      (later.1, events ++ later.2)
    else (buffer, [])

/-- The state of the server: the list `_listeners` and, for each socket, the
data received and not yet read. -/
structure SocketApi where
  _listeners : List QLocalSocket
  buffer : QLocalSocket → QByteArray

/-- The function `SocketApi::slotReadSocket` for the socket that sent
`readyRead`.  Every turn of the loop takes at least one byte out of the buffer,
so the length of the buffer is enough fuel. -/
def slotReadSocket (env : Env) (s : SocketApi) (socket : QLocalSocket) :
    SocketApi × List Event :=
  let result := slotReadSocketLoop env socket (s.buffer socket).length (s.buffer socket)
  ({ s with buffer := Function.update s.buffer socket result.1 }, result.2)

/-! ## Reading the events -/

/-- The command name `RETRIEVE_FOLDER_STATUS` of the wire protocol. -/
def RETRIEVE_FOLDER_STATUS : QString := "RETRIEVE_FOLDER_STATUS".toList

/-- The command name `RETRIEVE_FILE_STATUS` of the wire protocol. -/
def RETRIEVE_FILE_STATUS : QString := "RETRIEVE_FILE_STATUS".toList

/-- The command name that enters a handler: the name of the method without
`command_`. -/
def Method.command : Method → Option QString
  | .command_RETRIEVE_FOLDER_STATUS => some RETRIEVE_FOLDER_STATUS
  | .command_RETRIEVE_FILE_STATUS => some RETRIEVE_FILE_STATUS
  | _ => none

/-- The events of a handler entered from `slotReadSocket`. -/
def handlerEvents (env : Env) : Method → QString → QLocalSocket → List Event
  | .command_RETRIEVE_FOLDER_STATUS, argument, socket =>
    command_RETRIEVE_FOLDER_STATUS env argument (some socket)
  | .command_RETRIEVE_FILE_STATUS, argument, socket =>
    command_RETRIEVE_FILE_STATUS env argument (some socket)
  | _, _, _ => []

/-- The handler invocations among the events, in order. -/
def invocations (events : List Event) : List (Method × QString × QLocalSocket) :=
  events.filterMap (fun e =>
    match e with
    | Event.invoke method argument socket => some (method, argument, socket)
    | _ => none)

/-- The socket writes among the events, in order. -/
def writes (events : List Event) : List (QLocalSocket × QByteArray) :=
  events.filterMap (fun e =>
    match e with
    | Event.write socket data => some (socket, data)
    | _ => none)

/-- The directory listings among the events, in order. -/
def listings (events : List Event) : List (QString × Filters) :=
  events.filterMap (fun e =>
    match e with
    | Event.entryList dir filters => some (dir, filters)
    | _ => none)

/-- The wire message `STATUS:<code>:<path>` with its line feed. -/
def statusLine (code path : QString) : QString :=
  "STATUS:".toList ++ code ++ [':'] ++ path ++ ['\n']

/-- The state in which `rest` is what is buffered on `socket`. -/
def SocketApi.withBuffer (s : SocketApi) (socket : QLocalSocket) (rest : QByteArray) :
    SocketApi :=
  { s with buffer := Function.update s.buffer socket rest }

/-- The path at which a handler queries the status of the entry `name` of the
directory `dir`: the absolute path without the first `folder.path.length`
characters. -/
def relativePath (env : Env) (folder : Folder) (dir name : QString) : QString :=
  mid (env.absoluteFilePath dir name) folder.path.length

/-- The dispatch rule in the words of the specification, for the text of a
received line: trailing whitespace is trimmed, and the text before the first
colon has to be a registered command name. -/
def specDispatches (text : QString) : Bool :=
  let line := text.rdropWhile isSpace
  let name := line.takeWhile (fun c => c != ':')
  name == RETRIEVE_FOLDER_STATUS || name == RETRIEVE_FILE_STATUS

/-! ## An example world -/

/-- A managed folder with root `/sync/root` in which `/doc.txt` and `/a.txt` are
in sync, the status of `/gone.txt` cannot be read, and the subtree `/sub` is
in sync. -/
def exampleFolder : Folder where
  path := "/sync/root".toList
  fileStatus := fun file =>
    if file = "/doc.txt".toList ∨ file = "/a.txt".toList then FILE_STATUS_SYNC
    else if file = "/gone.txt".toList then FILE_STATUS_STAT_ERROR
    else SyncFileStatus.other 4
  recursiveFolderStatus := fun dir =>
    if dir = "/sub".toList then FILE_STATUS_SYNC else SyncFileStatus.other 1

/-- UTF-8 on ASCII text, for the examples: a byte below 128 is the character
with that code, any other byte is shown as U+FFFD. -/
def decodeAscii (bytes : QByteArray) : QString :=
  bytes.map (fun b => if b < 128 then Char.ofNat b else Char.ofNat 0xFFFD)

/-- UTF-8 on ASCII text, for the examples: a character below U+0080 is the byte
with its code, any other character is shown as a question mark. -/
def encodeAscii (s : QString) : QByteArray :=
  s.map (fun c => if c.toNat < 128 then c.toNat else 63)

/-- A world with the one managed folder `exampleFolder`; the directory
`/sync/root` holds `a.txt`, `doc.txt`, `new.txt`, `zed.txt` and the directory
`sub`, every other directory holds nothing but `.` and `..`. -/
def exampleEnv : Env where
  folderForPath := fun path =>
    if path.take 10 = "/sync/root".toList then some exampleFolder else none
  entries := fun dir =>
    if dir = "/sync/root".toList then
      [⟨".".toList, false, true, false⟩, ⟨"..".toList, false, true, false⟩,
       ⟨"a.txt".toList, true, false, false⟩, ⟨"doc.txt".toList, true, false, false⟩,
       ⟨"new.txt".toList, true, false, false⟩, ⟨"sub".toList, false, true, false⟩,
       ⟨"zed.txt".toList, true, false, false⟩]
    else [⟨".".toList, false, true, false⟩, ⟨"..".toList, false, true, false⟩]
  absoluteFilePath := fun dir name => dir ++ '/' :: name
  fromUtf8 := decodeAscii
  toUtf8 := encodeAscii

/-- A server with the one listener `7`, which has `buffer` to read. -/
def exampleServer (buffer : QByteArray) : SocketApi where
  _listeners := [7]
  buffer := fun _ => buffer

/-! ## The parts of a line -/

/-- The command that `slotReadSocket` takes from the text of a line: what stands
before the first colon of the trimmed text. -/
def commandOf (text : QString) : QString :=
  first (split ':' (trimmed text))

/-- The argument that `slotReadSocket` takes from the text of a line: the trimmed
text without the command and one more character, trimmed again. -/
def argumentOf (text : QString) : QString :=
  trimmed (remove (trimmed text) 0 ((commandOf text).length + 1))

/-! ## Connections and broadcast -/

/-- The function `SocketApi::slotNewConnection`, for the socket that
`nextPendingConnection()` returns (null when nothing is pending): the socket is
connected to `slotReadSocket` and `onLostConnection` and appended to
`_listeners`.  The `Q_ASSERT` on `readAll()` is compiled out of a release
build. -/
def slotNewConnection (s : SocketApi) (socket : Option QLocalSocket) : SocketApi :=
  match socket with
  | none => s
  | some socket => { s with _listeners := s._listeners ++ [socket] }

/-- The function `SocketApi::onLostConnection` for the sender of `disconnected`
(null when the sender is no `QLocalSocket`): `removeAll` takes every
occurrence of the socket out of `_listeners`. -/
def onLostConnection (s : SocketApi) (socket : Option QLocalSocket) : SocketApi :=
  match socket with
  | none => s
  | some socket => { s with _listeners := s._listeners.filter (fun current => current != socket) }

/-- The function `SocketApi::broadcastMessage`: the message is sent to every
entry of `_listeners`, in order. -/
def broadcastMessage (env : Env) (s : SocketApi) (message : QString) : List Event :=
  s._listeners.flatMap (fun current => sendMessage env current message)

/-- The function `SocketApi::slotSyncStateChanged`; the argument is not used. -/
def slotSyncStateChanged (env : Env) (s : SocketApi) (_folder : QString) : List Event :=
  broadcastMessage env s "UPDATE_VIEW".toList

/-- What arrives from outside: the signals that the `connect` calls of the
constructor and of `slotNewConnection` tie to the slots of the server. -/
inductive Action where
  -- `newConnection()` of the server, with what `nextPendingConnection()` returns
  | newConnection (pending : Option QLocalSocket)
  -- `disconnected()` of a socket, the sender
  | disconnected (sender : Option QLocalSocket)
  -- `readyRead()` of a socket after `chunk` has been added to what it has received
  | readyRead (sender : QLocalSocket) (chunk : QByteArray)
  -- `folderSyncStateChange(folder)` of the folder manager
  | folderSyncStateChange (folder : QString)
  deriving DecidableEq, Repr

/-- The arrival of `chunk` on a socket: the bytes are added to what the socket
has buffered, and `readyRead()` runs `slotReadSocket`. -/
def receive (env : Env) (s : SocketApi) (socket : QLocalSocket) (chunk : QByteArray) :
    SocketApi × List Event :=
  slotReadSocket env (s.withBuffer socket (s.buffer socket ++ chunk)) socket

/-- The slot that a signal runs: the state after it and its events. -/
def step (env : Env) (s : SocketApi) : Action → SocketApi × List Event
  | Action.newConnection pending => (slotNewConnection s pending, [])
  | Action.disconnected sender => (onLostConnection s sender, [])
  | Action.readyRead sender chunk => receive env s sender chunk
  | Action.folderSyncStateChange folder => (s, slotSyncStateChanged env s folder)

/-- The slots that a sequence of signals runs, one after the other. -/
def run (env : Env) (s : SocketApi) : List Action → SocketApi × List Event
  | [] => (s, [])
  | a :: rest =>
    ((run env (step env s a).1 rest).1, (step env s a).2 ++ (run env (step env s a).1 rest).2)

/-- Whether a signal accepts no socket that is in `_listeners` already. -/
def acceptsNew (s : SocketApi) : Action → Bool
  | Action.newConnection (some socket) => !s._listeners.contains socket
  | _ => true

/-- Every accepted socket is a new one: no `newConnection` brings a socket that
is in `_listeners` at that time. -/
def admissible (env : Env) (s : SocketApi) : List Action → Bool
  | [] => true
  | a :: rest => acceptsNew s a && admissible env (step env s a).1 rest

/-- Whether a connection is live after a sequence of signals, when `live` tells
whether it is before: an accept of the socket makes it live, a disconnect of
the socket ends that, and no other signal changes it. -/
def isLiveFrom (socket : QLocalSocket) : Bool → List Action → Bool
  | live, [] => live
  | live, Action.newConnection (some accepted) :: rest =>
    isLiveFrom socket (if accepted = socket then true else live) rest
  | live, Action.disconnected (some lost) :: rest =>
    isLiveFrom socket (if lost = socket then false else live) rest
  | live, _ :: rest => isLiveFrom socket live rest

/-- In the words of the specification: the connection has been accepted and has
not been disconnected since, that is, the last of the signals that accept it
or disconnect it is an accept. -/
def isLive (actions : List Action) (socket : QLocalSocket) : Bool :=
  isLiveFrom socket false actions

/-- The buffer that holds the complete lines `lines`, each with its line feed. -/
def joinLines (lines : List QByteArray) : QByteArray :=
  lines.flatMap (fun line => line ++ [10])

/-! ## Construction -/

/-- What the constructor does to the local server and to the signals. -/
inductive Setup where
  -- `QLocalServer::removeServer(socketPath)`
  | removeServer (socketPath : QString)
  -- `_localServer->listen(socketPath)`
  | listen (socketPath : QString)
  -- a line of `qDebug()` output, with the socket path
  | debug (message : QString) (socketPath : QString)
  -- `connect(sender, SIGNAL(signal), this, SLOT(slot))`
  | connect (signal : QString) (slot : Method)
  deriving DecidableEq, Repr

/-- What the constructor reads from the platform: `Utility::isWindows()`,
`Theme::instance()->appName()` and whether `listen` succeeds on a path. -/
structure Platform where
  isWindows : Bool
  appName : QString
  listen : QString → Bool

/-- The socket path that the constructor computes. -/
def socketPath (platform : Platform) (localFile : QString) : QString :=
  if platform.isWindows then "\\\\.\\pipe\\".toList ++ platform.appName else localFile

/-- The constructor `SocketApi::SocketApi`, for the local file of the URL: the
server it leaves, with no listener and nothing received, and what it did. -/
def SocketApi.SocketApi (platform : Platform) (localFile : QString) :
    SocketApi × List Setup :=
  let socketPath := socketPath platform localFile
  let started :=
    if !platform.listen socketPath then Setup.debug "can't start server".toList socketPath
    else Setup.debug "server started, listening at ".toList socketPath
  ({ _listeners := [], buffer := fun _ => [] },
    [Setup.removeServer socketPath, Setup.listen socketPath, started,
      Setup.connect "newConnection()".toList Method.slotNewConnection,
      Setup.connect "folderSyncStateChange(QString)".toList Method.slotSyncStateChanged])

/-- The server that the signals `actions` leave, from its construction on. -/
def reached (env : Env) (platform : Platform) (localFile : QString) (actions : List Action) :
    SocketApi :=
  (run env (SocketApi.SocketApi platform localFile).1 actions).1

/-- Whether the constructor has tied the server to accepting connections and to
the sync-state changes. -/
def wired (setup : List Setup) : Bool :=
  setup.contains (Setup.connect "newConnection()".toList Method.slotNewConnection) &&
    setup.contains
      (Setup.connect "folderSyncStateChange(QString)".toList Method.slotSyncStateChanged)

/-- A platform on which the socket path is taken and `listen` fails. -/
def busyPlatform : Platform where
  isWindows := false
  appName := "ownCloud".toList
  listen := fun _ => false

/-! ## Hidden entries -/

/-- The direct file entries of a directory in the words of the specification:
the name of every entry that is a file, hidden or not. -/
def directFiles (content : List QFileInfo) : List QString :=
  (content.filter (fun e => e.isFile)).map QFileInfo.fileName

/-- The direct subdirectories of a directory in the words of the specification:
the name of every entry that is a directory, hidden or not, other than `.` and
`..`. -/
def directSubdirectories (content : List QFileInfo) : List QString :=
  (content.filter (fun e => e.isDir && !isDotOrDotDot e.fileName)).map QFileInfo.fileName

/-- The example world with one more directory, `/sync/root/h`, which holds
nothing but the hidden file `.secret` and the hidden directory `.cache`; neither
is in sync. -/
def hiddenEnv : Env where
  folderForPath := exampleEnv.folderForPath
  entries := fun dir =>
    if dir = "/sync/root/h".toList then
      [⟨".".toList, false, true, false⟩, ⟨"..".toList, false, true, false⟩,
       ⟨".secret".toList, true, false, true⟩, ⟨".cache".toList, false, true, true⟩]
    else exampleEnv.entries dir
  absoluteFilePath := exampleEnv.absoluteFilePath
  fromUtf8 := exampleEnv.fromUtf8
  toUtf8 := exampleEnv.toUtf8

/-! # Theorems -/

/-! ## Strings -/

theorem first_split (sep : Char) (s : QString) :
    first (split sep s) = s.takeWhile (fun c => c != sep) := by
  induction s with
  | nil => rfl
  | cons c cs ih =>
    by_cases h : c = sep
    · simp [split, first, h, List.takeWhile]
    · have hne : (c != sep) = true := by simpa using h
      cases hs : split sep cs with
      | nil =>
        simp only [first, hs, List.headD_nil] at ih
        simp [split, first, h, hs, List.takeWhile_cons, hne, ← ih]
      | cons piece pieces =>
        simp only [first, hs, List.headD_cons] at ih
        simp [split, first, h, hs, List.takeWhile_cons, hne, ← ih]

theorem remove_zero (s : QString) (len : Nat) : remove s 0 len = s.drop len := by
  unfold remove
  by_cases h : s.length ≤ 0
  · have : s = [] := List.eq_nil_of_length_eq_zero (Nat.le_zero.mp h)
    simp [this]
  · rw [if_neg h]
    by_cases h2 : s.length - 0 ≤ len
    · rw [if_pos h2]
      simp only [List.take_zero]
      exact (List.drop_eq_nil_of_le (by simpa using h2)).symm
    · rw [if_neg h2]; simp

theorem dropWhile_append_cons {α : Type} (p : α → Bool) (a : List α) (x : α) (b : List α)
    (hx : p x = false) : (a ++ x :: b).dropWhile p = a.dropWhile p ++ x :: b := by
  induction a with
  | nil => simp [List.dropWhile, hx]
  | cons y ys ih =>
    by_cases hy : p y = true
    · simp [List.dropWhile, hy, ih]
    · simp [List.dropWhile, hy]

theorem rdropWhile_append_cons {α : Type} (p : α → Bool) (a : List α) (x : α) (b : List α)
    (hx : p x = false) : (a ++ x :: b).rdropWhile p = a ++ x :: b.rdropWhile p := by
  unfold List.rdropWhile
  have : (a ++ x :: b).reverse = b.reverse ++ x :: a.reverse := by simp
  rw [this, dropWhile_append_cons p _ _ _ hx]
  simp

theorem dropWhile_rdropWhile {α : Type} (p : α → Bool) (l : List α) :
    (l.rdropWhile p).dropWhile p = (l.dropWhile p).rdropWhile p := by
  have hsplit : l = l.takeWhile p ++ l.dropWhile p := (List.takeWhile_append_dropWhile p l).symm
  cases hd : l.dropWhile p with
  | nil =>
    have hall : ∀ x ∈ l, p x = true := by
      simpa using hd
    have : l.rdropWhile p = [] := List.rdropWhile_eq_nil_iff.mpr hall
    simp [this]
  | cons x b =>
    have hx : p x = false := by
      have := List.head_dropWhile_not p l (by simp [hd])
      simpa [hd] using this
    rw [hd] at hsplit
    have h1 : l.rdropWhile p = l.takeWhile p ++ x :: b.rdropWhile p := by
      conv_lhs => rw [hsplit]
      exact rdropWhile_append_cons p _ _ _ hx
    have h2 : (x :: b).rdropWhile p = x :: b.rdropWhile p := by
      simpa using rdropWhile_append_cons p [] x b hx
    rw [h1, h2, dropWhile_append_cons p _ _ _ hx]
    have : (l.takeWhile p).dropWhile p = [] := by
      simp [List.dropWhile_eq_nil_iff]
      intro a ha
      exact (List.mem_takeWhile_imp ha)
    rw [this]; rfl

theorem trimmed_rdropWhile (s : QString) : trimmed (s.rdropWhile isSpace) = trimmed s := by
  unfold trimmed
  rw [dropWhile_rdropWhile, List.rdropWhile_idempotent]

/-! ## The meta-object -/

theorem toAscii_append (a b : QString) : toAscii (a ++ b) = toAscii a ++ toAscii b := by
  simp [toAscii]

/-- Only the text `t` itself has the Latin-1 bytes of a text `t` that is Latin-1
and free of question marks. -/
theorem toAscii_eq_of_no_question (c t : QString)
    (ht : ∀ x ∈ t, x.toNat < 256 ∧ x.toNat ≠ 63) (h : toAscii c = toAscii t) : c = t := by
  induction c generalizing t with
  | nil =>
    cases t with
    | nil => rfl
    | cons y ys => simp [toAscii] at h
  | cons x xs ih =>
    cases t with
    | nil => simp [toAscii] at h
    | cons y ys =>
      simp only [toAscii, List.map_cons, List.cons.injEq] at h
      obtain ⟨h1, h2⟩ := h
      have hy := ht y (by simp)
      rw [if_pos hy.1] at h1
      have hx : x = y := by
        by_cases hlt : x.toNat < 256
        · rw [if_pos hlt] at h1
          rw [← Char.ofNat_toNat x, ← Char.ofNat_toNat y, h1]
        · rw [if_neg hlt] at h1
          exact absurd h1.symm hy.2
      rw [hx, ih ys (fun z hz => ht z (by simp [hz])) h2]

theorem constData_eq_self (bytes : QByteArray) (h : 0 ∉ bytes) : constData bytes = bytes := by
  unfold constData
  rw [List.takeWhile_eq_self_iff]
  intro b hb
  have : b ≠ 0 := fun e => h (e ▸ hb)
  simpa using this

theorem constData_append_nul (a b c : QByteArray) (h : 0 ∉ a) (h2 : 0 ∉ b) :
    constData (a ++ (b ++ 0 :: c)) = a ++ b := by
  unfold constData
  induction a with
  | nil =>
    induction b with
    | nil => simp [List.takeWhile]
    | cons x xs ih =>
      have hx : x ≠ 0 := fun e => h2 (by simp [e])
      have hxs : 0 ∉ xs := fun e => h2 (by simp [e])
      simp only [List.nil_append, List.cons_append] at ih ⊢
      rw [List.takeWhile_cons, if_pos (by simpa using hx), ih hxs]
  | cons x xs ih =>
    have hx : x ≠ 0 := fun e => h (by simp [e])
    have hxs : 0 ∉ xs := fun e => h (by simp [e])
    rw [List.cons_append, List.takeWhile_cons, if_pos (by simpa using hx), ih hxs]
    rfl

theorem signature_head (m : Method) (a b : QByteArray)
    (h : m.signature = latin1 "command_" ++ a ++ b) :
    m = .command_RETRIEVE_FOLDER_STATUS ∨ m = .command_RETRIEVE_FILE_STATUS := by
  have hc : (latin1 "command_" ++ a ++ b).head? = some 99 := rfl
  have hh := congrArg List.head? h
  rw [hc] at hh
  cases m <;> first | (left; rfl) | (right; rfl) | (exfalso; revert hh; decide)

theorem signature_folder : Method.signature .command_RETRIEVE_FOLDER_STATUS =
    latin1 "command_" ++ toAscii RETRIEVE_FOLDER_STATUS ++ latin1 "(QString,QLocalSocket*)" := by
  decide

theorem signature_file : Method.signature .command_RETRIEVE_FILE_STATUS =
    latin1 "command_" ++ toAscii RETRIEVE_FILE_STATUS ++ latin1 "(QString,QLocalSocket*)" := by
  decide

/-- The index of the method with the signature `command_<a>(QString,QLocalSocket*)`. -/
theorem indexOfMethod_command (a : QByteArray) :
    indexOfMethod (latin1 "command_" ++ a ++ latin1 "(QString,QLocalSocket*)") =
      if a = toAscii RETRIEVE_FOLDER_STATUS then 8
      else if a = toAscii RETRIEVE_FILE_STATUS then 9 else -1 := by
  have hne : ∀ m : Method, m ≠ .command_RETRIEVE_FOLDER_STATUS →
      m ≠ .command_RETRIEVE_FILE_STATUS →
      ¬ m.signature = latin1 "command_" ++ a ++ latin1 "(QString,QLocalSocket*)" := by
    intro m h1 h2 h
    rcases signature_head m a _ h with h' | h'
    · exact h1 h'
    · exact h2 h'
  have hfolder : (Method.signature .command_RETRIEVE_FOLDER_STATUS =
      latin1 "command_" ++ a ++ latin1 "(QString,QLocalSocket*)") ↔
      a = toAscii RETRIEVE_FOLDER_STATUS := by
    rw [signature_folder, List.append_left_inj, List.append_right_inj]
    exact eq_comm
  have hfile : (Method.signature .command_RETRIEVE_FILE_STATUS =
      latin1 "command_" ++ a ++ latin1 "(QString,QLocalSocket*)") ↔
      a = toAscii RETRIEVE_FILE_STATUS := by
    rw [signature_file, List.append_left_inj, List.append_right_inj]
    exact eq_comm
  unfold indexOfMethod methods
  simp only [indexOfMethodFrom]
  rw [if_neg (hne _ (by decide) (by decide)), if_neg (hne _ (by decide) (by decide)),
    if_neg (hne _ (by decide) (by decide)), if_neg (hne _ (by decide) (by decide)),
    if_neg (hne _ (by decide) (by decide)), if_neg (hne _ (by decide) (by decide)),
    if_neg (hne _ (by decide) (by decide)), if_neg (hne _ (by decide) (by decide))]
  simp only [hfolder, hfile]
  rfl

theorem toAscii_eq_folder (c : QString) :
    toAscii c = toAscii RETRIEVE_FOLDER_STATUS ↔ c = RETRIEVE_FOLDER_STATUS := by
  constructor
  · exact toAscii_eq_of_no_question c _ (by decide)
  · intro h; rw [h]

theorem toAscii_eq_file (c : QString) :
    toAscii c = toAscii RETRIEVE_FILE_STATUS ↔ c = RETRIEVE_FILE_STATUS := by
  constructor
  · exact toAscii_eq_of_no_question c _ (by decide)
  · intro h; rw [h]

/-- What `invokeMethod` does for the member `command_<a>`. -/
theorem invokeMethod_command (env : Env) (a : QByteArray) (argument : QString)
    (socket : QLocalSocket) :
    invokeMethod env (latin1 "command_" ++ a) argument socket =
      if a = toAscii RETRIEVE_FOLDER_STATUS then
        Event.invoke .command_RETRIEVE_FOLDER_STATUS argument socket ::
          command_RETRIEVE_FOLDER_STATUS env argument (some socket)
      else if a = toAscii RETRIEVE_FILE_STATUS then
        Event.invoke .command_RETRIEVE_FILE_STATUS argument socket ::
          command_RETRIEVE_FILE_STATUS env argument (some socket)
      else [] := by
  have hsig : latin1 "command_" ++ a ++ latin1 "(" ++ latin1 "QString" ++ latin1 "," ++
      latin1 "QLocalSocket*" ++ latin1 ")" =
      latin1 "command_" ++ a ++ latin1 "(QString,QLocalSocket*)" := by
    have h2 : latin1 "(" ++ latin1 "QString" ++ latin1 "," ++ latin1 "QLocalSocket*" ++
        latin1 ")" = latin1 "(QString,QLocalSocket*)" := by decide
    rw [← h2]
    simp only [List.append_assoc]
  unfold invokeMethod
  simp only [hsig, indexOfMethod_command]
  by_cases h1 : a = toAscii RETRIEVE_FOLDER_STATUS
  · simp only [if_pos h1]; rfl
  · by_cases h2 : a = toAscii RETRIEVE_FILE_STATUS
    · simp only [if_neg h1, if_pos h2]; rfl
    · simp only [if_neg h1, if_neg h2]; rfl

theorem mem_toAscii_zero_split (c : QString) (h : 0 ∈ toAscii c) :
    ∃ pre post, toAscii c = pre ++ 0 :: post ∧ 0 ∉ pre := by
  induction c with
  | nil => simp [toAscii] at h
  | cons x xs ih =>
    by_cases hx : (if x.toNat < 256 then x.toNat else 63) = 0
    · exact ⟨[], toAscii xs, by simp [toAscii, hx], by simp⟩
    · have hxs : 0 ∈ toAscii xs := by
        simp only [toAscii, List.map_cons, List.mem_cons] at h
        rcases h with h | h
        · exact absurd h.symm hx
        · exact h
      obtain ⟨pre, post, h1, h2⟩ := ih hxs
      refine ⟨(if x.toNat < 256 then x.toNat else 63) :: pre, post, ?_, ?_⟩
      · simp only [toAscii, List.map_cons, List.cons_append] at h1 ⊢
        rw [h1]
      · simp only [List.mem_cons, not_or]
        exact ⟨fun e => hx e.symm, h2⟩

/-- The loop body, by cases on the text before the first colon of the trimmed
line. -/
theorem processLine_eq (env : Env) (socket : QLocalSocket) (raw : QByteArray) :
    processLine env socket raw =
      if (trimmed (env.fromUtf8 raw)).takeWhile (fun c => c != ':') =
          RETRIEVE_FOLDER_STATUS then
        Event.invoke .command_RETRIEVE_FOLDER_STATUS
            (trimmed ((trimmed (env.fromUtf8 raw)).drop
              (RETRIEVE_FOLDER_STATUS.length + 1))) socket ::
          command_RETRIEVE_FOLDER_STATUS env
            (trimmed ((trimmed (env.fromUtf8 raw)).drop
              (RETRIEVE_FOLDER_STATUS.length + 1))) (some socket)
      else if (trimmed (env.fromUtf8 raw)).takeWhile (fun c => c != ':') =
          RETRIEVE_FILE_STATUS then
        Event.invoke .command_RETRIEVE_FILE_STATUS
            (trimmed ((trimmed (env.fromUtf8 raw)).drop
              (RETRIEVE_FILE_STATUS.length + 1))) socket ::
          command_RETRIEVE_FILE_STATUS env
            (trimmed ((trimmed (env.fromUtf8 raw)).drop
              (RETRIEVE_FILE_STATUS.length + 1))) (some socket)
      else [] := by
  have hcmd : toAscii "command_".toList = latin1 "command_" := by decide
  have hsuf : toAscii "(QString,QLocalSocket*)".toList = latin1 "(QString,QLocalSocket*)" := by
    decide
  have hcmd0 : 0 ∉ latin1 "command_" := by decide
  have hsuf0 : 0 ∉ latin1 "(QString,QLocalSocket*)" := by decide
  unfold processLine
  simp only [first_split, remove_zero, toAscii_append, hcmd, hsuf]
  generalize hc : (trimmed (env.fromUtf8 raw)).takeWhile (fun c => c != ':') = command
  by_cases h0 : 0 ∈ toAscii command
  · obtain ⟨pre, post, hsplit, hpre⟩ := mem_toAscii_zero_split command h0
    have hF : constData (latin1 "command_" ++ toAscii command ++
        latin1 "(QString,QLocalSocket*)") = latin1 "command_" ++ pre := by
      rw [hsplit, List.append_assoc, List.append_assoc, List.cons_append]
      exact constData_append_nul _ _ _ hcmd0 hpre
    have hG : constData (latin1 "command_" ++ toAscii command) = latin1 "command_" ++ pre := by
      rw [hsplit]
      exact constData_append_nul _ _ _ hcmd0 hpre
    have hn1 : command ≠ RETRIEVE_FOLDER_STATUS := by
      intro e; rw [e] at h0; revert h0; decide
    have hn2 : command ≠ RETRIEVE_FILE_STATUS := by
      intro e; rw [e] at h0; revert h0; decide
    rw [hF, hG, invokeMethod_command, if_neg hn1, if_neg hn2]
    by_cases h1 : pre = toAscii RETRIEVE_FOLDER_STATUS
    · subst h1
      rw [if_neg (by decide)]
    · by_cases h2 : pre = toAscii RETRIEVE_FILE_STATUS
      · subst h2
        rw [if_neg (by decide)]
      · rw [if_neg h1, if_neg h2]
        simp
  · have hF : constData (latin1 "command_" ++ toAscii command ++
        latin1 "(QString,QLocalSocket*)") =
        latin1 "command_" ++ toAscii command ++ latin1 "(QString,QLocalSocket*)" := by
      apply constData_eq_self
      simp only [List.mem_append, not_or]
      exact ⟨⟨hcmd0, h0⟩, hsuf0⟩
    have hG : constData (latin1 "command_" ++ toAscii command) =
        latin1 "command_" ++ toAscii command := by
      apply constData_eq_self
      simp only [List.mem_append, not_or]
      exact ⟨hcmd0, h0⟩
    rw [hF, hG, invokeMethod_command, indexOfMethod_command]
    simp only [toAscii_eq_folder, toAscii_eq_file]
    by_cases h1 : command = RETRIEVE_FOLDER_STATUS
    · subst h1
      simp only [if_true]
      rw [if_pos (by decide)]
    · by_cases h2 : command = RETRIEVE_FILE_STATUS
      · subst h2
        simp only [if_neg h1, if_true]
        rw [if_pos (by decide)]
      · simp only [if_neg h1, if_neg h2]
        simp

/-! ## The read loop -/

theorem canReadLine_iff (buffer : QByteArray) : canReadLine buffer = true ↔ 10 ∈ buffer := by
  simp [canReadLine]

theorem readLine_append (l rest : QByteArray) (h : 10 ∉ l) :
    readLine (l ++ 10 :: rest) = (l ++ [10], rest) := by
  induction l with
  | nil => simp [readLine]
  | cons c cs ih =>
    have hc : c ≠ 10 := fun e => h (by simp [e])
    have hcs : 10 ∉ cs := fun e => h (by simp [e])
    simp [readLine, hc, ih hcs]

theorem readLine_length (buffer : QByteArray) (h : buffer ≠ []) :
    (readLine buffer).2.length < buffer.length := by
  induction buffer with
  | nil => exact absurd rfl h
  | cons c cs ih =>
    by_cases hc : c = 10
    · simp [readLine, hc]
    · cases cs with
      | nil => simp [readLine, hc]
      | cons d ds =>
        have := ih (by simp)
        simp only [readLine, hc, if_false, List.length_cons] at this ⊢
        omega

theorem loop_no_line (env : Env) (socket : QLocalSocket) (fuel : Nat) (buffer : QByteArray)
    (h : 10 ∉ buffer) : slotReadSocketLoop env socket fuel buffer = (buffer, []) := by
  cases fuel with
  | zero => rfl
  | succ n =>
    have : canReadLine buffer = false := by
      cases hc : canReadLine buffer with
      | false => rfl
      | true => exact absurd ((canReadLine_iff buffer).mp hc) h
    simp [slotReadSocketLoop, this]

theorem loop_fuel (env : Env) (socket : QLocalSocket) :
    ∀ (n m : Nat) (buffer : QByteArray), buffer.length ≤ n → buffer.length ≤ m →
      slotReadSocketLoop env socket n buffer = slotReadSocketLoop env socket m buffer := by
  intro n
  induction n with
  | zero =>
    intro m buffer hn _
    have : buffer = [] := List.eq_nil_of_length_eq_zero (Nat.le_zero.mp hn)
    subst this
    rw [loop_no_line env socket 0 [] (by simp), loop_no_line env socket m [] (by simp)]
  | succ n ih =>
    intro m buffer hn hm
    cases m with
    | zero =>
      have : buffer = [] := List.eq_nil_of_length_eq_zero (Nat.le_zero.mp hm)
      subst this
      rw [loop_no_line env socket _ [] (by simp), loop_no_line env socket 0 [] (by simp)]
    | succ m =>
      cases hc : canReadLine buffer with
      | false => simp [slotReadSocketLoop, hc]
      | true =>
        have hne : buffer ≠ [] := by
          intro e; subst e; simp [canReadLine] at hc
        have hlt := readLine_length buffer hne
        simp only [slotReadSocketLoop, hc, if_true]
        rw [ih m (readLine buffer).2 (by omega) (by omega)]

/-- One complete line at the head of the buffer is processed and the loop goes
on with what follows it. -/
theorem loop_line (env : Env) (socket : QLocalSocket) (fuel : Nat) (l rest : QByteArray)
    (h : 10 ∉ l) (hfuel : (l ++ 10 :: rest).length ≤ fuel) :
    slotReadSocketLoop env socket fuel (l ++ 10 :: rest) =
      ((slotReadSocketLoop env socket rest.length rest).1,
        processLine env socket (l ++ [10]) ++
          (slotReadSocketLoop env socket rest.length rest).2) := by
  cases fuel with
  | zero => simp at hfuel
  | succ n =>
    have hc : canReadLine (l ++ 10 :: rest) = true := by
      rw [canReadLine_iff]; simp
    simp only [slotReadSocketLoop, hc, if_true, readLine_append l rest h]
    have hlen : rest.length ≤ n := by
      simp only [List.length_append, List.length_cons] at hfuel; omega
    rw [loop_fuel env socket n rest.length rest hlen (le_refl _)]

/-- With the length of the buffer as fuel the loop ends because no complete line
is left, not because the fuel is used up. -/
theorem loop_complete (env : Env) (socket : QLocalSocket) :
    ∀ (fuel : Nat) (buffer : QByteArray), buffer.length ≤ fuel →
      canReadLine (slotReadSocketLoop env socket fuel buffer).1 = false := by
  intro fuel
  induction fuel with
  | zero =>
    intro buffer h
    have : buffer = [] := List.eq_nil_of_length_eq_zero (Nat.le_zero.mp h)
    subst this; rfl
  | succ n ih =>
    intro buffer h
    cases hc : canReadLine buffer with
    | false => simp [slotReadSocketLoop, hc]
    | true =>
      have hne : buffer ≠ [] := by
        intro e; subst e; simp [canReadLine] at hc
      have hlt := readLine_length buffer hne
      simp only [slotReadSocketLoop, hc, if_true]
      exact ih _ (by omega)

/-! ## Events of the handlers -/

theorem invocations_append (a b : List Event) :
    invocations (a ++ b) = invocations a ++ invocations b := by
  simp [invocations]

theorem invocations_invoke (m : Method) (argument : QString) (socket : QLocalSocket)
    (l : List Event) :
    invocations (Event.invoke m argument socket :: l) = (m, argument, socket) :: invocations l :=
  rfl

theorem writes_append (a b : List Event) : writes (a ++ b) = writes a ++ writes b := by
  simp [writes]

theorem invocations_scanFiles (env : Env) (folder : Folder) (dir : QString) (l : List QString) :
    invocations (scanFiles env folder dir l).2 = [] := by
  induction l with
  | nil => rfl
  | cons f fs ih =>
    unfold scanFiles
    by_cases h : folder.fileStatus (mid (env.absoluteFilePath dir f) folder.path.length) =
        FILE_STATUS_SYNC
    · simp only [ne_eq, h, not_true_eq_false, if_false]
      simpa [invocations] using ih
    · simp [h, invocations]

theorem invocations_scanDirs (env : Env) (folder : Folder) (dir : QString) (l : List QString) :
    invocations (scanDirs env folder dir l).2 = [] := by
  induction l with
  | nil => rfl
  | cons f fs ih =>
    unfold scanDirs
    by_cases h : folder.recursiveFolderStatus
        (mid (env.absoluteFilePath dir f) folder.path.length) = FILE_STATUS_SYNC
    · simp only [ne_eq, h, not_true_eq_false, if_false]
      simpa [invocations] using ih
    · simp [h, invocations]

theorem invocations_folderStatusString (env : Env) (folder : Folder) (argument : QString) :
    invocations (folderStatusString env folder argument).2 = [] := by
  unfold folderStatusString
  have h1 := invocations_scanFiles env folder argument
    (entryList (env.entries argument) Filters.Files)
  have h2 := invocations_scanDirs env folder argument
    (entryList (env.entries argument) Filters.AllDirs_NoDotAndDotDot)
  have hcons : ∀ (d : QString) (f : Filters) (l : List Event),
      invocations (Event.entryList d f :: l) = invocations l := by
    intro d f l; simp [invocations]
  dsimp only
  split_ifs <;> simp only [invocations_append, hcons, h1, h2, List.append_nil]

theorem invocations_handlerEvents (env : Env) (m : Method) (argument : QString)
    (socket : QLocalSocket) : invocations (handlerEvents env m argument socket) = [] := by
  cases m <;> try rfl
  · simp only [handlerEvents, command_RETRIEVE_FOLDER_STATUS]
    cases env.folderForPath argument with
    | none => simp [invocations, sendMessage]
    | some folder =>
      have := invocations_folderStatusString env folder argument
      simp only [invocations_append, List.cons_append]
      simp [invocations, sendMessage] at this ⊢
      exact this
  · simp only [handlerEvents, command_RETRIEVE_FILE_STATUS]
    cases env.folderForPath argument with
    | none => simp [invocations, sendMessage]
    | some folder =>
      simp only [fileStatusString]
      split_ifs <;> simp [invocations, sendMessage]

/-! ## Lines that carry a registered command -/

theorem count_dropWhile {α : Type} [DecidableEq α] (p : α → Bool) (c : α) (l : List α)
    (hc : p c = false) : (l.dropWhile p).count c = l.count c := by
  induction l with
  | nil => rfl
  | cons x xs ih =>
    by_cases hx : p x = true
    · have hne : x ≠ c := by
        intro e; rw [e, hc] at hx; exact Bool.false_ne_true hx
      simp [List.dropWhile, hx, ih, List.count_cons, hne]
    · simp [List.dropWhile, hx]

theorem count_trimmed (c : Char) (s : QString) (hc : isSpace c = false) :
    (trimmed s).count c = s.count c := by
  unfold trimmed List.rdropWhile
  rw [List.count_reverse, count_dropWhile isSpace c _ hc, List.count_reverse,
    count_dropWhile isSpace c _ hc]

theorem command_shape (m : Method) (CMD : QString) (hm : m.command = some CMD) :
    (CMD = RETRIEVE_FOLDER_STATUS ∧ m = .command_RETRIEVE_FOLDER_STATUS) ∨
      (CMD = RETRIEVE_FILE_STATUS ∧ m = .command_RETRIEVE_FILE_STATUS) := by
  cases m <;> simp [Method.command] at hm
  · exact Or.inl ⟨hm.symm, rfl⟩
  · exact Or.inr ⟨hm.symm, rfl⟩

theorem trimmed_command_line (CMD ARG : QString)
    (hCMD : CMD = RETRIEVE_FOLDER_STATUS ∨ CMD = RETRIEVE_FILE_STATUS) :
    trimmed (CMD ++ ':' :: ARG ++ ['\n']) = CMD ++ ':' :: ARG.rdropWhile isSpace := by
  have hcolon : isSpace ':' = false := by decide
  have hhead : (CMD ++ ':' :: ARG ++ ['\n']).dropWhile isSpace = CMD ++ ':' :: ARG ++ ['\n'] := by
    rcases hCMD with h | h <;> subst h <;> rfl
  unfold trimmed
  rw [hhead, List.append_assoc, List.cons_append, rdropWhile_append_cons isSpace _ _ _ hcolon,
    List.rdropWhile_concat_pos isSpace ARG '\n' (by decide)]

theorem takeWhile_command (CMD X : QString)
    (hCMD : CMD = RETRIEVE_FOLDER_STATUS ∨ CMD = RETRIEVE_FILE_STATUS) :
    (CMD ++ ':' :: X).takeWhile (fun c => c != ':') = CMD := by
  rcases hCMD with h | h <;> subst h <;> rfl

theorem processLine_command_line (env : Env) (socket : QLocalSocket) (m : Method)
    (CMD ARG : QString) (raw : QByteArray) (hm : m.command = some CMD)
    (hline : env.fromUtf8 raw = CMD ++ ':' :: ARG ++ ['\n']) :
    processLine env socket raw =
      Event.invoke m (trimmed ARG) socket :: handlerEvents env m (trimmed ARG) socket := by
  have hshape := command_shape m CMD hm
  have hCMD : CMD = RETRIEVE_FOLDER_STATUS ∨ CMD = RETRIEVE_FILE_STATUS :=
    hshape.elim (fun h => Or.inl h.1) (fun h => Or.inr h.1)
  rw [processLine_eq, hline, trimmed_command_line CMD ARG hCMD, takeWhile_command CMD _ hCMD]
  rcases hshape with ⟨h1, h2⟩ | ⟨h1, h2⟩
  · subst h1; subst h2
    rw [if_pos rfl]
    have : (RETRIEVE_FOLDER_STATUS ++ ':' :: ARG.rdropWhile isSpace).drop
        (RETRIEVE_FOLDER_STATUS.length + 1) = ARG.rdropWhile isSpace := rfl
    rw [this, trimmed_rdropWhile]; rfl
  · subst h1; subst h2
    rw [if_neg (by decide), if_pos rfl]
    have : (RETRIEVE_FILE_STATUS ++ ':' :: ARG.rdropWhile isSpace).drop
        (RETRIEVE_FILE_STATUS.length + 1) = ARG.rdropWhile isSpace := rfl
    rw [this, trimmed_rdropWhile]; rfl

/-- A complete line at the head of the buffer of a socket: `slotReadSocket`
processes it and then does what it does with the rest of the buffer. -/
theorem slotReadSocket_line (env : Env) (s : SocketApi) (socket : QLocalSocket)
    (l rest : QByteArray) (hl : 10 ∉ l) (hbuf : s.buffer socket = l ++ 10 :: rest) :
    slotReadSocket env s socket =
      ((slotReadSocket env (s.withBuffer socket rest) socket).1,
        processLine env socket (l ++ [10]) ++
          (slotReadSocket env (s.withBuffer socket rest) socket).2) := by
  unfold slotReadSocket
  simp only [SocketApi.withBuffer, Function.update_same, Function.update_idem]
  rw [hbuf, loop_line env socket _ l rest hl (le_refl _)]

/-- C1: a complete line at the head of the buffer of a socket whose text is
`CMD:ARG\n`, with `CMD` a registered command name, enters the handler of `CMD`
exactly once, with `ARG` trimmed of surrounding whitespace as argument (the
events of the line are the invocation and the events of the handler, which
hold no further invocation), and the colons of `ARG` stay in the argument. -/
theorem slotReadSocket_dispatches_command_line (env : Env) (s : SocketApi)
    (socket : QLocalSocket) (m : Method) (CMD ARG : QString) (raw rest : QByteArray)
    (hm : m.command = some CMD) (hraw : 10 ∉ raw)
    (hbuf : s.buffer socket = raw ++ 10 :: rest)
    (hline : env.fromUtf8 (raw ++ [10]) = CMD ++ ':' :: ARG ++ ['\n']) :
    (slotReadSocket env s socket).2 =
        (Event.invoke m (trimmed ARG) socket :: handlerEvents env m (trimmed ARG) socket) ++
          (slotReadSocket env (s.withBuffer socket rest) socket).2 ∧
      invocations (slotReadSocket env s socket).2 =
        (m, trimmed ARG, socket) ::
          invocations (slotReadSocket env (s.withBuffer socket rest) socket).2 ∧
      (trimmed ARG).count ':' = ARG.count ':' := by
  have hev : (slotReadSocket env s socket).2 =
      (Event.invoke m (trimmed ARG) socket :: handlerEvents env m (trimmed ARG) socket) ++
        (slotReadSocket env (s.withBuffer socket rest) socket).2 := by
    rw [slotReadSocket_line env s socket raw rest hraw hbuf,
      processLine_command_line env socket m CMD ARG _ hm hline]
  refine ⟨hev, ?_, count_trimmed ':' ARG (by decide)⟩
  rw [hev, invocations_append, invocations_invoke, invocations_handlerEvents]
  rfl

/-- C1, witness: the line `RETRIEVE_FILE_STATUS: C:\dir \n` followed by another
line. -/
theorem slotReadSocket_dispatches_command_line_witness :
    (Method.command_RETRIEVE_FILE_STATUS).command = some RETRIEVE_FILE_STATUS ∧
      10 ∉ latin1 "RETRIEVE_FILE_STATUS: C:\\dir " ∧
      exampleEnv.fromUtf8 (latin1 "RETRIEVE_FILE_STATUS: C:\\dir " ++ [10]) =
        RETRIEVE_FILE_STATUS ++ ':' :: " C:\\dir ".toList ++ ['\n'] ∧
      invocations (slotReadSocket exampleEnv
        (exampleServer (latin1 "RETRIEVE_FILE_STATUS: C:\\dir \nFOO\n")) 7).2 =
        (Method.command_RETRIEVE_FILE_STATUS, "C:\\dir".toList, 7) ::
          invocations (slotReadSocket exampleEnv
            ((exampleServer (latin1 "RETRIEVE_FILE_STATUS: C:\\dir \nFOO\n")).withBuffer 7
              (latin1 "FOO\n")) 7).2 :=
  ⟨rfl, by decide, by decide,
    (slotReadSocket_dispatches_command_line exampleEnv
      (exampleServer (latin1 "RETRIEVE_FILE_STATUS: C:\\dir \nFOO\n")) 7
      Method.command_RETRIEVE_FILE_STATUS RETRIEVE_FILE_STATUS " C:\\dir ".toList
      (latin1 "RETRIEVE_FILE_STATUS: C:\\dir ") (latin1 "FOO\n")
      rfl (by decide) (by decide) (by decide)).2.1⟩

/-! ## The two scans -/

theorem scanFiles_in_sync (env : Env) (folder : Folder) (dir : QString) (l : List QString)
    (h : ∀ f ∈ l, folder.fileStatus (relativePath env folder dir f) = FILE_STATUS_SYNC) :
    scanFiles env folder dir l =
      ([], l.map (fun f => Event.fileStatus folder.path (relativePath env folder dir f))) := by
  induction l with
  | nil => rfl
  | cons f fs ih =>
    have hf := h f (by simp)
    have hfs := ih (fun g hg => h g (by simp [hg]))
    unfold relativePath at hf
    unfold scanFiles
    simp only [ne_eq, hf, not_true_eq_false, if_false, hfs, List.map_cons]
    rfl

theorem scanFiles_out_of_sync (env : Env) (folder : Folder) (dir : QString)
    (pre : List QString) (f : QString) (post : List QString)
    (hpre : ∀ g ∈ pre, folder.fileStatus (relativePath env folder dir g) = FILE_STATUS_SYNC)
    (hf : folder.fileStatus (relativePath env folder dir f) ≠ FILE_STATUS_SYNC) :
    scanFiles env folder dir (pre ++ f :: post) =
      (NEED_SYNC,
        (pre ++ [f]).map (fun g => Event.fileStatus folder.path (relativePath env folder dir g))) := by
  induction pre with
  | nil =>
    unfold relativePath at hf
    simp only [List.nil_append, scanFiles, ne_eq, hf, not_false_eq_true, if_true, List.map_cons,
      List.map_nil]
    rfl
  | cons g gs ih =>
    have hg := hpre g (by simp)
    have hgs := ih (fun x hx => hpre x (by simp [hx]))
    unfold relativePath at hg
    rw [List.cons_append]
    unfold scanFiles
    simp only [ne_eq, hg, not_true_eq_false, if_false, hgs, List.cons_append, List.map_cons]
    rfl

theorem scanDirs_in_sync (env : Env) (folder : Folder) (dir : QString) (l : List QString)
    (h : ∀ d ∈ l, folder.recursiveFolderStatus (relativePath env folder dir d) =
      FILE_STATUS_SYNC) :
    scanDirs env folder dir l =
      ([], l.map (fun d =>
        Event.recursiveFolderStatus folder.path (relativePath env folder dir d))) := by
  induction l with
  | nil => rfl
  | cons f fs ih =>
    have hf := h f (by simp)
    have hfs := ih (fun g hg => h g (by simp [hg]))
    unfold relativePath at hf
    unfold scanDirs
    simp only [ne_eq, hf, not_true_eq_false, if_false, hfs, List.map_cons]
    rfl

theorem scanDirs_out_of_sync (env : Env) (folder : Folder) (dir : QString)
    (pre : List QString) (d : QString) (post : List QString)
    (hpre : ∀ g ∈ pre, folder.recursiveFolderStatus (relativePath env folder dir g) =
      FILE_STATUS_SYNC)
    (hd : folder.recursiveFolderStatus (relativePath env folder dir d) ≠ FILE_STATUS_SYNC) :
    scanDirs env folder dir (pre ++ d :: post) =
      (NEED_SYNC, (pre ++ [d]).map (fun g =>
        Event.recursiveFolderStatus folder.path (relativePath env folder dir g))) := by
  induction pre with
  | nil =>
    unfold relativePath at hd
    simp only [List.nil_append, scanDirs, ne_eq, hd, not_false_eq_true, if_true, List.map_cons,
      List.map_nil]
    rfl
  | cons g gs ih =>
    have hg := hpre g (by simp)
    have hgs := ih (fun x hx => hpre x (by simp [hx]))
    unfold relativePath at hg
    rw [List.cons_append]
    unfold scanDirs
    simp only [ne_eq, hg, not_true_eq_false, if_false, hgs, List.cons_append, List.map_cons]
    rfl

/-- A list with an element that fails `p` splits at the first such element. -/
theorem first_failure {α : Type} (p : α → Prop) [DecidablePred p] (l : List α)
    (h : ∃ x ∈ l, ¬ p x) :
    ∃ pre x post, l = pre ++ x :: post ∧ (∀ y ∈ pre, p y) ∧ ¬ p x := by
  induction l with
  | nil => obtain ⟨x, hx, _⟩ := h; simp at hx
  | cons a as ih =>
    by_cases ha : p a
    · obtain ⟨x, hx, hpx⟩ := h
      have hx2 : x ∈ as := by
        rcases List.mem_cons.mp hx with e | e
        · exact absurd (e ▸ ha) hpx
        · exact e
      obtain ⟨pre, y, post, h1, h2, h3⟩ := ih ⟨x, hx2, hpx⟩
      refine ⟨a :: pre, y, post, by simp [h1], ?_, h3⟩
      intro z hz
      rcases List.mem_cons.mp hz with e | e
      · exact e ▸ ha
      · exact h2 z e
    · exact ⟨[], a, as, rfl, by simp, ha⟩

theorem statusLine_inj (c1 c2 path : QString) (h : statusLine c1 path = statusLine c2 path) :
    c1 = c2 := by
  unfold statusLine at h
  rw [List.append_left_inj, List.append_left_inj, List.append_left_inj,
    List.append_right_inj] at h
  exact h

theorem sendMessage_status (env : Env) (socket : QLocalSocket) (code path : QString) :
    sendMessage env socket ("STATUS:".toList ++ code ++ [':'] ++ path) =
      [Event.write socket (env.toUtf8 (statusLine code path))] := rfl

/-! ## The status handlers -/

theorem writes_scanFiles (env : Env) (folder : Folder) (dir : QString) (l : List QString) :
    writes (scanFiles env folder dir l).2 = [] := by
  induction l with
  | nil => rfl
  | cons f fs ih =>
    unfold scanFiles
    by_cases h : folder.fileStatus (mid (env.absoluteFilePath dir f) folder.path.length) =
        FILE_STATUS_SYNC
    · simp only [ne_eq, h, not_true_eq_false, if_false]
      simpa [writes] using ih
    · simp [h, writes]

theorem writes_scanDirs (env : Env) (folder : Folder) (dir : QString) (l : List QString) :
    writes (scanDirs env folder dir l).2 = [] := by
  induction l with
  | nil => rfl
  | cons f fs ih =>
    unfold scanDirs
    by_cases h : folder.recursiveFolderStatus
        (mid (env.absoluteFilePath dir f) folder.path.length) = FILE_STATUS_SYNC
    · simp only [ne_eq, h, not_true_eq_false, if_false]
      simpa [writes] using ih
    · simp [h, writes]

theorem writes_folderStatusString (env : Env) (folder : Folder) (argument : QString) :
    writes (folderStatusString env folder argument).2 = [] := by
  unfold folderStatusString
  have h1 := writes_scanFiles env folder argument
    (entryList (env.entries argument) Filters.Files)
  have h2 := writes_scanDirs env folder argument
    (entryList (env.entries argument) Filters.AllDirs_NoDotAndDotDot)
  have hcons : ∀ (d : QString) (f : Filters) (l : List Event),
      writes (Event.entryList d f :: l) = writes l := by
    intro d f l; simp [writes]
  dsimp only
  split_ifs <;> simp only [writes_append, hcons, h1, h2, List.append_nil]

/-- The events of the folder handler for a resolved folder. -/
theorem folder_handler_events (env : Env) (argument : QString) (socket : QLocalSocket)
    (folder : Folder) (h : env.folderForPath argument = some folder) :
    command_RETRIEVE_FOLDER_STATUS env argument (some socket) =
      Event.folderForPath argument :: (folderStatusString env folder argument).2 ++
        [Event.write socket
          (env.toUtf8 (statusLine (folderStatusString env folder argument).1 argument))] := by
  simp only [command_RETRIEVE_FOLDER_STATUS, h, sendMessage_status]

theorem folder_handler_writes (env : Env) (argument : QString) (socket : QLocalSocket)
    (folder : Folder) (h : env.folderForPath argument = some folder) :
    writes (command_RETRIEVE_FOLDER_STATUS env argument (some socket)) =
      [(socket, env.toUtf8 (statusLine (folderStatusString env folder argument).1 argument))] := by
  rw [folder_handler_events env argument socket folder h, writes_append]
  have : writes (Event.folderForPath argument :: (folderStatusString env folder argument).2) =
      [] := by
    have := writes_folderStatusString env folder argument
    simpa [writes] using this
  rw [this]; rfl

/-- Every file in sync and every subtree in sync: both listings are scanned to
the end and the status is `OK`. -/
theorem folderStatusString_in_sync (env : Env) (folder : Folder) (argument : QString)
    (hfiles : ∀ f ∈ entryList (env.entries argument) Filters.Files,
      folder.fileStatus (relativePath env folder argument f) = FILE_STATUS_SYNC)
    (hdirs : ∀ d ∈ entryList (env.entries argument) Filters.AllDirs_NoDotAndDotDot,
      folder.recursiveFolderStatus (relativePath env folder argument d) = FILE_STATUS_SYNC) :
    folderStatusString env folder argument =
      (OK, Event.entryList argument Filters.Files ::
        (entryList (env.entries argument) Filters.Files).map
          (fun f => Event.fileStatus folder.path (relativePath env folder argument f)) ++
        Event.entryList argument Filters.AllDirs_NoDotAndDotDot ::
        (entryList (env.entries argument) Filters.AllDirs_NoDotAndDotDot).map
          (fun d => Event.recursiveFolderStatus folder.path
            (relativePath env folder argument d))) := by
  unfold folderStatusString
  simp only [scanFiles_in_sync env folder argument _ hfiles,
    scanDirs_in_sync env folder argument _ hdirs, List.isEmpty_nil, if_true]

/-- A file out of sync: the scan of the files stops at the first one, no
subdirectory is listed and the status is `NEED_SYNC`. -/
theorem folderStatusString_file_out_of_sync (env : Env) (folder : Folder) (argument : QString)
    (pre : List QString) (f : QString) (post : List QString)
    (hlist : entryList (env.entries argument) Filters.Files = pre ++ f :: post)
    (hpre : ∀ g ∈ pre, folder.fileStatus (relativePath env folder argument g) = FILE_STATUS_SYNC)
    (hf : folder.fileStatus (relativePath env folder argument f) ≠ FILE_STATUS_SYNC) :
    folderStatusString env folder argument =
      (NEED_SYNC, Event.entryList argument Filters.Files ::
        (pre ++ [f]).map
          (fun g => Event.fileStatus folder.path (relativePath env folder argument g))) := by
  unfold folderStatusString
  simp only [hlist, scanFiles_out_of_sync env folder argument pre f post hpre hf]
  rfl

/-- Every file in sync and a subtree out of sync: the scan of the
subdirectories stops at the first one and the status is `NEED_SYNC`. -/
theorem folderStatusString_dir_out_of_sync (env : Env) (folder : Folder) (argument : QString)
    (pre : List QString) (d : QString) (post : List QString)
    (hfiles : ∀ f ∈ entryList (env.entries argument) Filters.Files,
      folder.fileStatus (relativePath env folder argument f) = FILE_STATUS_SYNC)
    (hlist : entryList (env.entries argument) Filters.AllDirs_NoDotAndDotDot = pre ++ d :: post)
    (hpre : ∀ g ∈ pre, folder.recursiveFolderStatus (relativePath env folder argument g) =
      FILE_STATUS_SYNC)
    (hd : folder.recursiveFolderStatus (relativePath env folder argument d) ≠ FILE_STATUS_SYNC) :
    folderStatusString env folder argument =
      (NEED_SYNC, Event.entryList argument Filters.Files ::
        (entryList (env.entries argument) Filters.Files).map
          (fun f => Event.fileStatus folder.path (relativePath env folder argument f)) ++
        Event.entryList argument Filters.AllDirs_NoDotAndDotDot ::
        (pre ++ [d]).map (fun g => Event.recursiveFolderStatus folder.path
            (relativePath env folder argument g))) := by
  unfold folderStatusString
  simp only [scanFiles_in_sync env folder argument _ hfiles, hlist,
    scanDirs_out_of_sync env folder argument pre d post hpre hd, List.isEmpty_nil, if_true]
  rfl

theorem folderStatusString_need_sync (env : Env) (folder : Folder) (argument : QString)
    (h : ¬ ((∀ f ∈ entryList (env.entries argument) Filters.Files,
        folder.fileStatus (relativePath env folder argument f) = FILE_STATUS_SYNC) ∧
      (∀ d ∈ entryList (env.entries argument) Filters.AllDirs_NoDotAndDotDot,
        folder.recursiveFolderStatus (relativePath env folder argument d) =
          FILE_STATUS_SYNC))) :
    (folderStatusString env folder argument).1 = NEED_SYNC := by
  by_cases hfiles : ∀ f ∈ entryList (env.entries argument) Filters.Files,
      folder.fileStatus (relativePath env folder argument f) = FILE_STATUS_SYNC
  · have hdirs : ∃ d ∈ entryList (env.entries argument) Filters.AllDirs_NoDotAndDotDot,
        ¬ folder.recursiveFolderStatus (relativePath env folder argument d) =
          FILE_STATUS_SYNC := by
      by_contra hno
      push_neg at hno
      exact h ⟨hfiles, hno⟩
    obtain ⟨pre, d, post, h1, h2, h3⟩ := first_failure _ _ hdirs
    rw [folderStatusString_dir_out_of_sync env folder argument pre d post hfiles h1 h2 h3]
  · have hbad : ∃ f ∈ entryList (env.entries argument) Filters.Files,
        ¬ folder.fileStatus (relativePath env folder argument f) = FILE_STATUS_SYNC := by
      by_contra hno
      push_neg at hno
      exact hfiles hno
    obtain ⟨pre, f, post, h1, h2, h3⟩ := first_failure _ _ hbad
    rw [folderStatusString_file_out_of_sync env folder argument pre f post h1 h2 h3]

/-- The status of the folder handler for a resolved folder: `OK` when every
listed file and every listed subdirectory is in sync, `NEED_SYNC` otherwise. -/
theorem folderStatusString_code (env : Env) (folder : Folder) (argument : QString) :
    (folderStatusString env folder argument).1 =
      if (∀ f ∈ entryList (env.entries argument) Filters.Files,
          folder.fileStatus (relativePath env folder argument f) = FILE_STATUS_SYNC) ∧
        (∀ d ∈ entryList (env.entries argument) Filters.AllDirs_NoDotAndDotDot,
          folder.recursiveFolderStatus (relativePath env folder argument d) =
            FILE_STATUS_SYNC) then OK
      else NEED_SYNC := by
  split_ifs with hc
  · rw [folderStatusString_in_sync env folder argument hc.1 hc.2]
  · exact folderStatusString_need_sync env folder argument hc

theorem OK_ne_NEED_SYNC : OK ≠ NEED_SYNC := by decide

/-- The events of the file handler for a resolved folder. -/
theorem file_handler_events (env : Env) (argument : QString) (socket : QLocalSocket)
    (folder : Folder) (h : env.folderForPath argument = some folder) :
    command_RETRIEVE_FILE_STATUS env argument (some socket) =
      [Event.folderForPath argument,
        Event.fileStatus folder.path (mid argument folder.path.length),
        Event.write socket (env.toUtf8 (statusLine
          (if folder.fileStatus (mid argument folder.path.length) = FILE_STATUS_SYNC then OK
            else NEED_SYNC) argument))] := by
  simp only [command_RETRIEVE_FILE_STATUS, h, sendMessage_status, fileStatusString]
  by_cases hs : folder.fileStatus (mid argument folder.path.length) = FILE_STATUS_SYNC
  · simp [hs]
  · simp [hs]

/-- The events of either handler for a path without owning folder. -/
theorem handler_events_unresolved (env : Env) (argument : QString) (socket : QLocalSocket)
    (h : env.folderForPath argument = none) :
    command_RETRIEVE_FILE_STATUS env argument (some socket) =
        [Event.folderForPath argument, Event.write socket (env.toUtf8 (statusLine NOP argument))] ∧
      command_RETRIEVE_FOLDER_STATUS env argument (some socket) =
        [Event.folderForPath argument, Event.write socket (env.toUtf8 (statusLine NOP argument))] := by
  constructor
  · simp only [command_RETRIEVE_FILE_STATUS, h, sendMessage_status]
  · simp only [command_RETRIEVE_FOLDER_STATUS, h, sendMessage_status]

/-- Either handler, entered with a valid socket, writes one status line to it,
with one of the three codes. -/
theorem writes_handlerEvents (env : Env) (m : Method) (CMD : QString)
    (hm : m.command = some CMD) (argument : QString) (socket : QLocalSocket) :
    ∃ code, (code = OK ∨ code = NEED_SYNC ∨ code = NOP) ∧
      writes (handlerEvents env m argument socket) =
        [(socket, env.toUtf8 (statusLine code argument))] := by
  rcases command_shape m CMD hm with ⟨_, h⟩ | ⟨_, h⟩
  · subst h
    cases hf : env.folderForPath argument with
    | none =>
      refine ⟨NOP, Or.inr (Or.inr rfl), ?_⟩
      simp only [handlerEvents, (handler_events_unresolved env argument socket hf).2]
      rfl
    | some folder =>
      simp only [handlerEvents, folder_handler_writes env argument socket folder hf]
      by_cases hc : (∀ f ∈ entryList (env.entries argument) Filters.Files,
          folder.fileStatus (relativePath env folder argument f) = FILE_STATUS_SYNC) ∧
        (∀ d ∈ entryList (env.entries argument) Filters.AllDirs_NoDotAndDotDot,
          folder.recursiveFolderStatus (relativePath env folder argument d) =
            FILE_STATUS_SYNC)
      · exact ⟨OK, Or.inl rfl, by rw [folderStatusString_in_sync env folder argument hc.1 hc.2]⟩
      · exact ⟨NEED_SYNC, Or.inr (Or.inl rfl),
          by rw [folderStatusString_need_sync env folder argument hc]⟩
  · subst h
    cases hf : env.folderForPath argument with
    | none =>
      refine ⟨NOP, Or.inr (Or.inr rfl), ?_⟩
      simp only [handlerEvents, (handler_events_unresolved env argument socket hf).1]
      rfl
    | some folder =>
      simp only [handlerEvents, file_handler_events env argument socket folder hf]
      by_cases hs : folder.fileStatus (mid argument folder.path.length) = FILE_STATUS_SYNC
      · exact ⟨OK, Or.inl rfl, by simp [hs, writes]⟩
      · exact ⟨NEED_SYNC, Or.inr (Or.inl rfl), by simp [hs, writes]⟩

theorem slotReadSocket_last_line (env : Env) (s : SocketApi) (socket : QLocalSocket)
    (l : QByteArray) (hl : 10 ∉ l) (hbuf : s.buffer socket = l ++ [10]) :
    (slotReadSocket env s socket).2 = processLine env socket (l ++ [10]) := by
  rw [slotReadSocket_line env s socket l [] hl hbuf]
  simp [slotReadSocket, SocketApi.withBuffer, slotReadSocketLoop]

/-! ## The claims on the status handlers -/

/-- C2: when the one line buffered on a socket reads `RETRIEVE_FILE_STATUS:p\n`
or `RETRIEVE_FOLDER_STATUS:p\n`, with `p` free of surrounding whitespace,
`slotReadSocket` writes exactly one message, to that socket: the encoding of
`STATUS:<code>:p\n` with code `OK`, `NEED_SYNC` or `NOP`.  And the line
`RETRIEVE_FILE_STATUS:/sync/root/doc.txt\n`, with a resolved folder that reports
the file in sync, is answered `STATUS:OK:/sync/root/doc.txt\n`. -/
theorem status_request_writes_one_status_line (env : Env) (s : SocketApi)
    (socket : QLocalSocket) (raw : QByteArray) (hraw : 10 ∉ raw)
    (hbuf : s.buffer socket = raw ++ [10]) :
    (∀ (m : Method) (CMD p : QString), m.command = some CMD → trimmed p = p →
        env.fromUtf8 (raw ++ [10]) = CMD ++ ':' :: p ++ ['\n'] →
        ∃ code, (code = OK ∨ code = NEED_SYNC ∨ code = NOP) ∧
          writes (slotReadSocket env s socket).2 =
            [(socket, env.toUtf8 (statusLine code p))]) ∧
      (∀ folder : Folder,
        env.fromUtf8 (raw ++ [10]) = "RETRIEVE_FILE_STATUS:/sync/root/doc.txt\n".toList →
        env.folderForPath "/sync/root/doc.txt".toList = some folder →
        folder.fileStatus (mid "/sync/root/doc.txt".toList folder.path.length) =
          FILE_STATUS_SYNC →
        writes (slotReadSocket env s socket).2 =
          [(socket, env.toUtf8 "STATUS:OK:/sync/root/doc.txt\n".toList)]) := by
  rw [slotReadSocket_last_line env s socket raw hraw hbuf]
  constructor
  · intro m CMD p hm hp hline
    rw [processLine_command_line env socket m CMD p _ hm hline, hp]
    obtain ⟨code, hcode, hw⟩ := writes_handlerEvents env m CMD hm p socket
    refine ⟨code, hcode, ?_⟩
    have : writes (Event.invoke m p socket :: handlerEvents env m p socket) =
        writes (handlerEvents env m p socket) := by simp [writes]
    rw [this, hw]
  · intro folder hline hf hs
    have hline2 : env.fromUtf8 (raw ++ [10]) =
        RETRIEVE_FILE_STATUS ++ ':' :: "/sync/root/doc.txt".toList ++ ['\n'] := by
      rw [hline]; decide
    rw [processLine_command_line env socket .command_RETRIEVE_FILE_STATUS RETRIEVE_FILE_STATUS
        "/sync/root/doc.txt".toList _ rfl hline2]
    have ht : trimmed "/sync/root/doc.txt".toList = "/sync/root/doc.txt".toList := by decide
    rw [ht]
    simp only [handlerEvents, file_handler_events env _ socket folder hf, hs, if_true]
    have hstatus : statusLine OK "/sync/root/doc.txt".toList =
        "STATUS:OK:/sync/root/doc.txt\n".toList := by decide
    simp only [writes, List.filterMap_cons, List.filterMap_nil, hstatus]

/-- C2, witness: the file request for `/sync/root/doc.txt` in the example
world. -/
theorem status_request_writes_one_status_line_witness :
    10 ∉ latin1 "RETRIEVE_FILE_STATUS:/sync/root/doc.txt" ∧
    ((Method.command_RETRIEVE_FILE_STATUS).command = some RETRIEVE_FILE_STATUS ∧
      trimmed "/sync/root/doc.txt".toList = "/sync/root/doc.txt".toList ∧
      exampleEnv.fromUtf8 (latin1 "RETRIEVE_FILE_STATUS:/sync/root/doc.txt" ++ [10]) =
        RETRIEVE_FILE_STATUS ++ ':' :: "/sync/root/doc.txt".toList ++ ['\n'] ∧
      ∃ code, (code = OK ∨ code = NEED_SYNC ∨ code = NOP) ∧
        writes (slotReadSocket exampleEnv
          (exampleServer (latin1 "RETRIEVE_FILE_STATUS:/sync/root/doc.txt" ++ [10])) 7).2 =
          [(7, exampleEnv.toUtf8 (statusLine code "/sync/root/doc.txt".toList))]) ∧
    (exampleEnv.folderForPath "/sync/root/doc.txt".toList = some exampleFolder ∧
      exampleFolder.fileStatus (mid "/sync/root/doc.txt".toList exampleFolder.path.length) =
        FILE_STATUS_SYNC ∧
      writes (slotReadSocket exampleEnv
        (exampleServer (latin1 "RETRIEVE_FILE_STATUS:/sync/root/doc.txt" ++ [10])) 7).2 =
        [(7, latin1 "STATUS:OK:/sync/root/doc.txt\n")]) :=
  ⟨by decide,
   ⟨rfl, by decide, by decide,
    (status_request_writes_one_status_line exampleEnv
      (exampleServer (latin1 "RETRIEVE_FILE_STATUS:/sync/root/doc.txt" ++ [10])) 7
      (latin1 "RETRIEVE_FILE_STATUS:/sync/root/doc.txt") (by decide) rfl).1
      Method.command_RETRIEVE_FILE_STATUS RETRIEVE_FILE_STATUS "/sync/root/doc.txt".toList
      rfl (by decide) (by decide)⟩,
   ⟨rfl, by decide,
    (status_request_writes_one_status_line exampleEnv
      (exampleServer (latin1 "RETRIEVE_FILE_STATUS:/sync/root/doc.txt" ++ [10])) 7
      (latin1 "RETRIEVE_FILE_STATUS:/sync/root/doc.txt") (by decide) rfl).2
      exampleFolder (by decide) rfl (by decide)⟩⟩

theorem dot_not_listed (content : List QFileInfo) :
    ['.'] ∉ entryList content Filters.AllDirs_NoDotAndDotDot ∧
      ['.', '.'] ∉ entryList content Filters.AllDirs_NoDotAndDotDot := by
  have h1 : isDotOrDotDot ['.'] = true := by decide
  have h2 : isDotOrDotDot ['.', '.'] = true := by decide
  constructor <;>
  · intro h
    simp only [entryList, List.mem_map, List.mem_filter] at h
    obtain ⟨e, ⟨_, he⟩, hname⟩ := h
    rw [hname] at he
    simp [h1, h2] at he

theorem mem_entryList_files (content : List QFileInfo) (P : QString → Prop) :
    (∀ f ∈ entryList content Filters.Files, P f) ↔
      ∀ e ∈ content, e.isFile = true → e.isHidden = false → P e.fileName := by
  simp only [entryList, List.mem_map, List.mem_filter, Bool.and_eq_true, Bool.not_eq_true']
  constructor
  · intro h e he h1 h2
    exact h _ ⟨e, ⟨he, h1, h2⟩, rfl⟩
  · rintro h f ⟨e, ⟨he, h1, h2⟩, rfl⟩
    exact h e he h1 h2

theorem isDotOrDotDot_eq_false (name : QString) :
    isDotOrDotDot name = false ↔ name ≠ ['.'] ∧ name ≠ ['.', '.'] := by
  simp [isDotOrDotDot]

theorem mem_entryList_dirs (content : List QFileInfo) (P : QString → Prop) :
    (∀ d ∈ entryList content Filters.AllDirs_NoDotAndDotDot, P d) ↔
      ∀ e ∈ content, e.isDir = true → e.isHidden = false → e.fileName ≠ ['.'] →
        e.fileName ≠ ['.', '.'] → P e.fileName := by
  simp only [entryList, List.mem_map, List.mem_filter, Bool.and_eq_true, Bool.not_eq_true',
    isDotOrDotDot_eq_false]
  constructor
  · intro h e he h1 h2 h3 h4
    exact h _ ⟨e, ⟨he, ⟨h1, h2⟩, h3, h4⟩, rfl⟩
  · rintro h d ⟨e, ⟨he, ⟨h1, h2⟩, h3, h4⟩, rfl⟩
    exact h e he h1 h2 h3 h4

/-- C3, as the specification words it, fails: the directory `/sync/root/h` holds
a file and a subdirectory that are out of sync, both hidden, and the handler
answers `OK`. -/
theorem folder_status_every_direct_entry_counterexample :
    ¬ (writes (command_RETRIEVE_FOLDER_STATUS hiddenEnv "/sync/root/h".toList (some 7)) =
          [(7, hiddenEnv.toUtf8 (statusLine OK "/sync/root/h".toList))] ↔
        ((∀ f ∈ directFiles (hiddenEnv.entries "/sync/root/h".toList),
            exampleFolder.fileStatus
              (relativePath hiddenEnv exampleFolder "/sync/root/h".toList f) =
              FILE_STATUS_SYNC) ∧
          (∀ d ∈ directSubdirectories (hiddenEnv.entries "/sync/root/h".toList),
            exampleFolder.recursiveFolderStatus
              (relativePath hiddenEnv exampleFolder "/sync/root/h".toList d) =
              FILE_STATUS_SYNC))) := by
  decide

/-- C3, amended: with a resolved owning folder, `command_RETRIEVE_FOLDER_STATUS`
writes one message, the encoding of `STATUS:<code>:<path>\n`, where the code is
`OK` when every entry of the directory that is a file and not hidden has
single-file status `FILE_STATUS_SYNC` and every entry that is a directory, not
hidden and neither `.` nor `..` has recursive status `FILE_STATUS_SYNC`, and
`NEED_SYNC` in every other case; the two messages differ.  Hidden entries have
no part in the answer. -/
theorem folder_status_ok_iff_visible_entries_in_sync (env : Env) (argument : QString)
    (socket : QLocalSocket) (folder : Folder) (h : env.folderForPath argument = some folder) :
    writes (command_RETRIEVE_FOLDER_STATUS env argument (some socket)) =
      [(socket, env.toUtf8 (statusLine
        (if (∀ e ∈ env.entries argument, e.isFile = true → e.isHidden = false →
            folder.fileStatus (relativePath env folder argument e.fileName) =
              FILE_STATUS_SYNC) ∧
          (∀ e ∈ env.entries argument, e.isDir = true → e.isHidden = false →
            e.fileName ≠ ['.'] → e.fileName ≠ ['.', '.'] →
            folder.recursiveFolderStatus (relativePath env folder argument e.fileName) =
              FILE_STATUS_SYNC) then OK
        else NEED_SYNC) argument))] ∧
    statusLine OK argument ≠ statusLine NEED_SYNC argument := by
  refine ⟨?_, fun e => OK_ne_NEED_SYNC (statusLine_inj _ _ _ e)⟩
  rw [folder_handler_writes env argument socket folder h, folderStatusString_code]
  have hf := mem_entryList_files (env.entries argument)
    (fun f => folder.fileStatus (relativePath env folder argument f) = FILE_STATUS_SYNC)
  have hd := mem_entryList_dirs (env.entries argument)
    (fun d => folder.recursiveFolderStatus (relativePath env folder argument d) =
      FILE_STATUS_SYNC)
  by_cases hc : (∀ e ∈ env.entries argument, e.isFile = true → e.isHidden = false →
        folder.fileStatus (relativePath env folder argument e.fileName) = FILE_STATUS_SYNC) ∧
      (∀ e ∈ env.entries argument, e.isDir = true → e.isHidden = false →
        e.fileName ≠ ['.'] → e.fileName ≠ ['.', '.'] →
        folder.recursiveFolderStatus (relativePath env folder argument e.fileName) =
          FILE_STATUS_SYNC)
  · rw [if_pos hc, if_pos ⟨hf.mpr hc.1, hd.mpr hc.2⟩]
  · rw [if_neg hc, if_neg (fun hl => hc ⟨hf.mp hl.1, hd.mp hl.2⟩)]

/-- C3, amended, witness: `/sync/root` of the example world, where `new.txt` is
out of sync, is answered `NEED_SYNC`, and `/sync/root/h`, where only hidden
entries are out of sync, is answered `OK`. -/
theorem folder_status_ok_iff_visible_entries_in_sync_witness :
    (exampleEnv.folderForPath "/sync/root".toList = some exampleFolder ∧
      writes (command_RETRIEVE_FOLDER_STATUS exampleEnv "/sync/root".toList (some 7)) =
        [(7, latin1 "STATUS:NEED_SYNC:/sync/root\n")]) ∧
    (hiddenEnv.folderForPath "/sync/root/h".toList = some exampleFolder ∧
      writes (command_RETRIEVE_FOLDER_STATUS hiddenEnv "/sync/root/h".toList (some 7)) =
        [(7, latin1 "STATUS:OK:/sync/root/h\n")]) :=
  ⟨⟨rfl, ((folder_status_ok_iff_visible_entries_in_sync exampleEnv "/sync/root".toList 7
      exampleFolder rfl).1).trans (by decide)⟩,
   ⟨rfl, ((folder_status_ok_iff_visible_entries_in_sync hiddenEnv "/sync/root/h".toList 7
      exampleFolder rfl).1).trans (by decide)⟩⟩

/-- C4: with a resolved owning folder, `command_RETRIEVE_FILE_STATUS` makes one
single-file status query, for the argument without its first
`folder.path.length` characters, and one write: `STATUS:OK:<path>\n` when the
status is `FILE_STATUS_SYNC`, `STATUS:NEED_SYNC:<path>\n` for every other
status, `FILE_STATUS_STAT_ERROR` too.  It lists no directory, and for every
argument its one message carries `OK`, `NEED_SYNC` or `NOP`. -/
theorem file_status_ok_iff_in_sync (env : Env) (argument : QString) (socket : QLocalSocket) :
    (∀ folder : Folder, env.folderForPath argument = some folder →
      (command_RETRIEVE_FILE_STATUS env argument (some socket) =
        [Event.folderForPath argument,
          Event.fileStatus folder.path (mid argument folder.path.length),
          Event.write socket (env.toUtf8 (statusLine
            (if folder.fileStatus (mid argument folder.path.length) = FILE_STATUS_SYNC then OK
              else NEED_SYNC) argument))]) ∧
      (folder.fileStatus (mid argument folder.path.length) = FILE_STATUS_SYNC →
        writes (command_RETRIEVE_FILE_STATUS env argument (some socket)) =
          [(socket, env.toUtf8 (statusLine OK argument))]) ∧
      (folder.fileStatus (mid argument folder.path.length) ≠ FILE_STATUS_SYNC →
        writes (command_RETRIEVE_FILE_STATUS env argument (some socket)) =
          [(socket, env.toUtf8 (statusLine NEED_SYNC argument))]) ∧
      (folder.fileStatus (mid argument folder.path.length) = FILE_STATUS_STAT_ERROR →
        writes (command_RETRIEVE_FILE_STATUS env argument (some socket)) =
          [(socket, env.toUtf8 (statusLine NEED_SYNC argument))])) ∧
    statusLine OK argument ≠ statusLine NEED_SYNC argument ∧
    listings (command_RETRIEVE_FILE_STATUS env argument (some socket)) = [] ∧
    ∃ code, (code = OK ∨ code = NEED_SYNC ∨ code = NOP) ∧
      writes (command_RETRIEVE_FILE_STATUS env argument (some socket)) =
        [(socket, env.toUtf8 (statusLine code argument))] := by
  refine ⟨?_, ?_, ?_, ?_⟩
  · intro folder hf
    have hev := file_handler_events env argument socket folder hf
    have hneed : folder.fileStatus (mid argument folder.path.length) ≠ FILE_STATUS_SYNC →
        writes (command_RETRIEVE_FILE_STATUS env argument (some socket)) =
          [(socket, env.toUtf8 (statusLine NEED_SYNC argument))] := by
      intro hs
      rw [hev, if_neg hs]; rfl
    refine ⟨hev, ?_, hneed, ?_⟩
    · intro hs
      rw [hev, if_pos hs]; rfl
    · intro hs
      exact hneed (by rw [hs]; decide)
  · intro e
    exact OK_ne_NEED_SYNC (statusLine_inj _ _ _ e)
  · cases hf : env.folderForPath argument with
    | none => rw [(handler_events_unresolved env argument socket hf).1]; rfl
    | some folder => rw [file_handler_events env argument socket folder hf]; rfl
  · exact writes_handlerEvents env .command_RETRIEVE_FILE_STATUS RETRIEVE_FILE_STATUS rfl
      argument socket

/-- C4, witness: `/sync/root/gone.txt` of the example world, whose status is
`FILE_STATUS_STAT_ERROR`. -/
theorem file_status_ok_iff_in_sync_witness :
    exampleEnv.folderForPath "/sync/root/gone.txt".toList = some exampleFolder ∧
      exampleFolder.fileStatus (mid "/sync/root/gone.txt".toList exampleFolder.path.length) =
        FILE_STATUS_STAT_ERROR ∧
      writes (command_RETRIEVE_FILE_STATUS exampleEnv "/sync/root/gone.txt".toList (some 7)) =
        [(7, latin1 "STATUS:NEED_SYNC:/sync/root/gone.txt\n")] :=
  ⟨rfl, by decide,
    ((file_status_ok_iff_in_sync exampleEnv "/sync/root/gone.txt".toList 7).1
      exampleFolder rfl).2.2.2 (by decide)⟩

/-- C5: for a path without owning folder both handlers resolve the path and
write `STATUS:NOP:<path>\n`, and do nothing else: no directory is listed and no
status is queried, whatever the directories and the folders hold. -/
theorem unresolved_path_answers_NOP (env : Env) (argument : QString) (socket : QLocalSocket)
    (h : env.folderForPath argument = none) :
    command_RETRIEVE_FILE_STATUS env argument (some socket) =
        [Event.folderForPath argument,
          Event.write socket (env.toUtf8 (statusLine NOP argument))] ∧
      command_RETRIEVE_FOLDER_STATUS env argument (some socket) =
        [Event.folderForPath argument,
          Event.write socket (env.toUtf8 (statusLine NOP argument))] :=
  handler_events_unresolved env argument socket h

/-- C5, witness: `/elsewhere` is under no managed folder of the example world. -/
theorem unresolved_path_answers_NOP_witness :
    exampleEnv.folderForPath "/elsewhere".toList = none ∧
      command_RETRIEVE_FILE_STATUS exampleEnv "/elsewhere".toList (some 7) =
        [Event.folderForPath "/elsewhere".toList,
          Event.write 7 (latin1 "STATUS:NOP:/elsewhere\n")] ∧
      command_RETRIEVE_FOLDER_STATUS exampleEnv "/elsewhere".toList (some 7) =
        [Event.folderForPath "/elsewhere".toList,
          Event.write 7 (latin1 "STATUS:NOP:/elsewhere\n")] :=
  ⟨rfl, unresolved_path_answers_NOP exampleEnv "/elsewhere".toList 7 rfl⟩

/-- C6, as the specification words it, fails: the one file of `/sync/root/h` is
out of sync, but it is hidden, and the handler does not answer `NEED_SYNC`. -/
theorem folder_status_any_file_out_of_sync_counterexample :
    ¬ ((∃ f ∈ directFiles (hiddenEnv.entries "/sync/root/h".toList),
          ¬ exampleFolder.fileStatus
            (relativePath hiddenEnv exampleFolder "/sync/root/h".toList f) =
            FILE_STATUS_SYNC) →
        writes (command_RETRIEVE_FOLDER_STATUS hiddenEnv "/sync/root/h".toList (some 7)) =
          [(7, hiddenEnv.toUtf8 (statusLine NEED_SYNC "/sync/root/h".toList))]) := by
  decide

/-- C6, amended: with a resolved owning folder and an entry of the directory
that is a file, not hidden and not in sync, `command_RETRIEVE_FOLDER_STATUS`
answers `NEED_SYNC`; its events are the resolution, the listing of the files,
the status queries for the files that are not hidden, in the order of the
directory, up to and with the first one out of sync, and the write: no later
file is queried and no subdirectory is listed or queried. -/
theorem folder_status_stops_at_first_visible_file_out_of_sync (env : Env)
    (argument : QString) (socket : QLocalSocket) (folder : Folder)
    (h : env.folderForPath argument = some folder)
    (hbad : ∃ e ∈ env.entries argument, e.isFile = true ∧ e.isHidden = false ∧
      ¬ folder.fileStatus (relativePath env folder argument e.fileName) = FILE_STATUS_SYNC) :
    ∃ pre f post,
      ((env.entries argument).filter (fun e => e.isFile && !e.isHidden)).map
          QFileInfo.fileName = pre ++ f :: post ∧
      (∀ g ∈ pre, folder.fileStatus (relativePath env folder argument g) = FILE_STATUS_SYNC) ∧
      ¬ folder.fileStatus (relativePath env folder argument f) = FILE_STATUS_SYNC ∧
      command_RETRIEVE_FOLDER_STATUS env argument (some socket) =
        Event.folderForPath argument :: Event.entryList argument Filters.Files ::
          (pre ++ [f]).map
            (fun g => Event.fileStatus folder.path (relativePath env folder argument g)) ++
          [Event.write socket (env.toUtf8 (statusLine NEED_SYNC argument))] := by
  have hlisted : ∃ f ∈ entryList (env.entries argument) Filters.Files,
      ¬ folder.fileStatus (relativePath env folder argument f) = FILE_STATUS_SYNC := by
    obtain ⟨e, he, h1, h2, h3⟩ := hbad
    refine ⟨e.fileName, ?_, h3⟩
    simp only [entryList, List.mem_map, List.mem_filter, Bool.and_eq_true, Bool.not_eq_true']
    exact ⟨e, ⟨he, h1, h2⟩, rfl⟩
  obtain ⟨pre, f, post, h1, h2, h3⟩ := first_failure _ _ hlisted
  refine ⟨pre, f, post, h1, h2, h3, ?_⟩
  rw [folder_handler_events env argument socket folder h,
    folderStatusString_file_out_of_sync env folder argument pre f post h1 h2 h3]

/-- C6, amended, witness: `/sync/root` of the example world, where `new.txt` is
the first file out of sync: `a.txt`, `doc.txt` and `new.txt` are queried,
`zed.txt` and `sub` are not. -/
theorem folder_status_stops_at_first_visible_file_out_of_sync_witness :
    exampleEnv.folderForPath "/sync/root".toList = some exampleFolder ∧
      (∃ e ∈ exampleEnv.entries "/sync/root".toList, e.isFile = true ∧ e.isHidden = false ∧
        ¬ exampleFolder.fileStatus
          (relativePath exampleEnv exampleFolder "/sync/root".toList e.fileName) =
          FILE_STATUS_SYNC) ∧
      (∃ pre f post,
        ((exampleEnv.entries "/sync/root".toList).filter
            (fun e => e.isFile && !e.isHidden)).map QFileInfo.fileName = pre ++ f :: post ∧
        (∀ g ∈ pre, exampleFolder.fileStatus
          (relativePath exampleEnv exampleFolder "/sync/root".toList g) = FILE_STATUS_SYNC) ∧
        ¬ exampleFolder.fileStatus
          (relativePath exampleEnv exampleFolder "/sync/root".toList f) = FILE_STATUS_SYNC ∧
        command_RETRIEVE_FOLDER_STATUS exampleEnv "/sync/root".toList (some 7) =
          Event.folderForPath "/sync/root".toList ::
            Event.entryList "/sync/root".toList Filters.Files ::
            (pre ++ [f]).map (fun g => Event.fileStatus exampleFolder.path
              (relativePath exampleEnv exampleFolder "/sync/root".toList g)) ++
            [Event.write 7 (exampleEnv.toUtf8 (statusLine NEED_SYNC "/sync/root".toList))]) ∧
      command_RETRIEVE_FOLDER_STATUS exampleEnv "/sync/root".toList (some 7) =
        [Event.folderForPath "/sync/root".toList,
          Event.entryList "/sync/root".toList Filters.Files,
          Event.fileStatus "/sync/root".toList "/a.txt".toList,
          Event.fileStatus "/sync/root".toList "/doc.txt".toList,
          Event.fileStatus "/sync/root".toList "/new.txt".toList,
          Event.write 7 (latin1 "STATUS:NEED_SYNC:/sync/root\n")] :=
  ⟨rfl, ⟨⟨"new.txt".toList, true, false, false⟩, by decide, by decide, by decide, by decide⟩,
    folder_status_stops_at_first_visible_file_out_of_sync exampleEnv "/sync/root".toList 7
      exampleFolder rfl
      ⟨⟨"new.txt".toList, true, false, false⟩, by decide, by decide, by decide, by decide⟩,
    by decide⟩

/-- C7: with a resolved owning folder, no listed file and no listed
subdirectory, `command_RETRIEVE_FOLDER_STATUS` writes `STATUS:OK:<path>\n`. -/
theorem empty_folder_answers_OK (env : Env) (argument : QString) (socket : QLocalSocket)
    (folder : Folder) (h : env.folderForPath argument = some folder)
    (hfiles : entryList (env.entries argument) Filters.Files = [])
    (hdirs : entryList (env.entries argument) Filters.AllDirs_NoDotAndDotDot = []) :
    command_RETRIEVE_FOLDER_STATUS env argument (some socket) =
      [Event.folderForPath argument, Event.entryList argument Filters.Files,
        Event.entryList argument Filters.AllDirs_NoDotAndDotDot,
        Event.write socket (env.toUtf8 (statusLine OK argument))] := by
  rw [folder_handler_events env argument socket folder h,
    folderStatusString_in_sync env folder argument (by simp [hfiles]) (by simp [hdirs]),
    hfiles, hdirs]
  rfl

/-- C7, witness: `/sync/root/sub` of the example world holds only `.` and `..`. -/
theorem empty_folder_answers_OK_witness :
    exampleEnv.folderForPath "/sync/root/sub".toList = some exampleFolder ∧
      entryList (exampleEnv.entries "/sync/root/sub".toList) Filters.Files = [] ∧
      entryList (exampleEnv.entries "/sync/root/sub".toList) Filters.AllDirs_NoDotAndDotDot =
        [] ∧
      command_RETRIEVE_FOLDER_STATUS exampleEnv "/sync/root/sub".toList (some 7) =
        [Event.folderForPath "/sync/root/sub".toList,
          Event.entryList "/sync/root/sub".toList Filters.Files,
          Event.entryList "/sync/root/sub".toList Filters.AllDirs_NoDotAndDotDot,
          Event.write 7 (latin1 "STATUS:OK:/sync/root/sub\n")] :=
  ⟨rfl, by decide, by decide,
    empty_folder_answers_OK exampleEnv "/sync/root/sub".toList 7 exampleFolder rfl
      (by decide) (by decide)⟩

/-! ## The claims on lines that are not dispatched -/

theorem processLine_unregistered (env : Env) (socket : QLocalSocket) (raw : QByteArray)
    (h1 : (trimmed (env.fromUtf8 raw)).takeWhile (fun c => c != ':') ≠ RETRIEVE_FOLDER_STATUS)
    (h2 : (trimmed (env.fromUtf8 raw)).takeWhile (fun c => c != ':') ≠ RETRIEVE_FILE_STATUS) :
    processLine env socket raw = [] := by
  rw [processLine_eq, if_neg h1, if_neg h2]

/-- C8: a line whose command name is not registered has no effect: no event at
all comes from it (no write to any socket, no handler), the listener list
stays as it is, and `slotReadSocket` ends exactly as it does when only the lines
after it are buffered. -/
theorem unregistered_command_is_skipped (env : Env) (s : SocketApi) (socket : QLocalSocket)
    (raw rest : QByteArray) (hraw : 10 ∉ raw)
    (h1 : (trimmed (env.fromUtf8 (raw ++ [10]))).takeWhile (fun c => c != ':') ≠
      RETRIEVE_FOLDER_STATUS)
    (h2 : (trimmed (env.fromUtf8 (raw ++ [10]))).takeWhile (fun c => c != ':') ≠
      RETRIEVE_FILE_STATUS)
    (hbuf : s.buffer socket = raw ++ 10 :: rest) :
    processLine env socket (raw ++ [10]) = [] ∧
      slotReadSocket env s socket = slotReadSocket env (s.withBuffer socket rest) socket ∧
      (slotReadSocket env s socket).1._listeners = s._listeners := by
  have hp := processLine_unregistered env socket (raw ++ [10]) h1 h2
  refine ⟨hp, ?_, rfl⟩
  rw [slotReadSocket_line env s socket raw rest hraw hbuf, hp]
  rfl

/-- C8, witness: the unknown command `FOO:bar` before a file request. -/
theorem unregistered_command_is_skipped_witness :
    10 ∉ latin1 "FOO:bar" ∧
      (slotReadSocket exampleEnv
        (exampleServer (latin1 "FOO:bar\nRETRIEVE_FILE_STATUS:/sync/root/doc.txt\n")) 7).2 =
      [Event.invoke Method.command_RETRIEVE_FILE_STATUS "/sync/root/doc.txt".toList 7,
        Event.folderForPath "/sync/root/doc.txt".toList,
        Event.fileStatus "/sync/root".toList "/doc.txt".toList,
        Event.write 7 (latin1 "STATUS:OK:/sync/root/doc.txt\n")] :=
  ⟨by decide,
    (congrArg Prod.snd (unregistered_command_is_skipped exampleEnv
      (exampleServer (latin1 "FOO:bar\nRETRIEVE_FILE_STATUS:/sync/root/doc.txt\n")) 7
      (latin1 "FOO:bar") (latin1 "RETRIEVE_FILE_STATUS:/sync/root/doc.txt\n")
      (by decide) (by decide) (by decide) (by decide)).2.1).trans (by decide)⟩

/-- C9, as the specification words it, fails: after trimming trailing
whitespace only, the text before the first colon of
`" RETRIEVE_FILE_STATUS:/a\n"` is not a registered name, and yet the line is
dispatched. -/
theorem dispatch_trailing_trim_only_counterexample :
    ¬ (invocations (slotReadSocket exampleEnv
          (exampleServer (latin1 " RETRIEVE_FILE_STATUS:/a\n")) 7).2 ≠ [] ↔
        specDispatches (exampleEnv.fromUtf8 (latin1 " RETRIEVE_FILE_STATUS:/a\n")) = true) := by
  decide

/-- C9, amended: a line is dispatched exactly when, after trimming the
whitespace at both ends, the text before its first colon is one of the
registered command names, letter for letter.  A name in another case or with
whitespace between the name and the colon is not dispatched; whitespace before
the name is trimmed away and the line is dispatched. -/
theorem dispatch_iff_trimmed_command_registered (env : Env) (socket : QLocalSocket) :
    (∀ raw : QByteArray, invocations (processLine env socket raw) ≠ [] ↔
      ((trimmed (env.fromUtf8 raw)).takeWhile (fun c => c != ':') = RETRIEVE_FOLDER_STATUS ∨
        (trimmed (env.fromUtf8 raw)).takeWhile (fun c => c != ':') = RETRIEVE_FILE_STATUS)) ∧
    (∀ raw : QByteArray, env.fromUtf8 raw = "retrieve_file_status:/a\n".toList →
      processLine env socket raw = []) ∧
    (∀ raw : QByteArray, env.fromUtf8 raw = "RETRIEVE_FILE_STATUS :/a\n".toList →
      processLine env socket raw = []) ∧
    (∀ raw : QByteArray, env.fromUtf8 raw = " RETRIEVE_FILE_STATUS:/a\n".toList →
      invocations (processLine env socket raw) =
        [(Method.command_RETRIEVE_FILE_STATUS, "/a".toList, socket)]) := by
  refine ⟨fun raw => ⟨?_, ?_⟩, ?_, ?_, ?_⟩
  · intro h
    by_contra hc
    push_neg at hc
    rw [processLine_unregistered env socket raw hc.1 hc.2] at h
    exact h rfl
  · intro h
    rw [processLine_eq]
    rcases h with h | h
    · rw [if_pos h, invocations_invoke]; simp
    · by_cases h' : (trimmed (env.fromUtf8 raw)).takeWhile (fun c => c != ':') =
          RETRIEVE_FOLDER_STATUS
      · rw [if_pos h', invocations_invoke]; simp
      · rw [if_neg h', if_pos h, invocations_invoke]; simp
  · intro raw hraw
    exact processLine_unregistered env socket _ (by rw [hraw]; decide) (by rw [hraw]; decide)
  · intro raw hraw
    exact processLine_unregistered env socket _ (by rw [hraw]; decide) (by rw [hraw]; decide)
  · intro raw hraw
    have htrim : trimmed " RETRIEVE_FILE_STATUS:/a\n".toList =
        RETRIEVE_FILE_STATUS ++ ':' :: "/a".toList := by decide
    have harg : trimmed ((RETRIEVE_FILE_STATUS ++ ':' :: "/a".toList).drop
        (RETRIEVE_FILE_STATUS.length + 1)) = "/a".toList := by decide
    rw [processLine_eq, hraw, htrim, if_neg (by decide), if_pos (by decide),
      invocations_invoke, harg]
    have hev := invocations_handlerEvents env .command_RETRIEVE_FILE_STATUS
    simp only [handlerEvents] at hev
    rw [hev]

/-- C9, amended, witness: the three example lines in the example world. -/
theorem dispatch_iff_trimmed_command_registered_witness :
    (exampleEnv.fromUtf8 (latin1 "retrieve_file_status:/a\n") =
        "retrieve_file_status:/a\n".toList ∧
      processLine exampleEnv 7 (latin1 "retrieve_file_status:/a\n") = []) ∧
    (exampleEnv.fromUtf8 (latin1 "RETRIEVE_FILE_STATUS :/a\n") =
        "RETRIEVE_FILE_STATUS :/a\n".toList ∧
      processLine exampleEnv 7 (latin1 "RETRIEVE_FILE_STATUS :/a\n") = []) ∧
    (exampleEnv.fromUtf8 (latin1 " RETRIEVE_FILE_STATUS:/a\n") =
        " RETRIEVE_FILE_STATUS:/a\n".toList ∧
      invocations (processLine exampleEnv 7 (latin1 " RETRIEVE_FILE_STATUS:/a\n")) =
        [(Method.command_RETRIEVE_FILE_STATUS, "/a".toList, 7)]) :=
  ⟨⟨by decide, (dispatch_iff_trimmed_command_registered exampleEnv 7).2.1 _ (by decide)⟩,
   ⟨by decide, (dispatch_iff_trimmed_command_registered exampleEnv 7).2.2.1 _ (by decide)⟩,
   ⟨by decide, (dispatch_iff_trimmed_command_registered exampleEnv 7).2.2.2 _ (by decide)⟩⟩

theorem takeWhile_bare_command (CMD : QString)
    (hCMD : CMD = RETRIEVE_FOLDER_STATUS ∨ CMD = RETRIEVE_FILE_STATUS) :
    CMD.takeWhile (fun c => c != ':') = CMD := by
  rcases hCMD with h | h <;> subst h <;> decide

/-- C10: a line whose text holds no colon and is, once trimmed, a registered
command name enters the handler of that command with the empty string as
argument, as every line with the text `COMMAND:\n` does. -/
theorem bare_command_has_empty_argument (env : Env) (socket : QLocalSocket) (m : Method)
    (CMD : QString) (raw : QByteArray) (hm : m.command = some CMD)
    (_hcolon : ':' ∉ env.fromUtf8 raw) (htrim : trimmed (env.fromUtf8 raw) = CMD) :
    processLine env socket raw = Event.invoke m [] socket :: handlerEvents env m [] socket ∧
      ∀ raw2 : QByteArray, env.fromUtf8 raw2 = CMD ++ ':' :: [] ++ ['\n'] →
        processLine env socket raw = processLine env socket raw2 := by
  have hshape := command_shape m CMD hm
  have hCMD : CMD = RETRIEVE_FOLDER_STATUS ∨ CMD = RETRIEVE_FILE_STATUS :=
    hshape.elim (fun h => Or.inl h.1) (fun h => Or.inr h.1)
  have hfirst : processLine env socket raw =
      Event.invoke m [] socket :: handlerEvents env m [] socket := by
    rw [processLine_eq, htrim, takeWhile_bare_command CMD hCMD]
    rcases hshape with ⟨h1, h2⟩ | ⟨h1, h2⟩
    · subst h1; subst h2
      rw [if_pos rfl]; rfl
    · subst h1; subst h2
      rw [if_neg (by decide), if_pos rfl]; rfl
  refine ⟨hfirst, ?_⟩
  intro raw2 hraw2
  rw [hfirst, processLine_command_line env socket m CMD [] raw2 hm hraw2]
  rfl

/-- C10, witness: the line `RETRIEVE_FOLDER_STATUS\n` and the line
`RETRIEVE_FOLDER_STATUS:\n`. -/
theorem bare_command_has_empty_argument_witness :
    (Method.command_RETRIEVE_FOLDER_STATUS).command = some RETRIEVE_FOLDER_STATUS ∧
      ':' ∉ exampleEnv.fromUtf8 (latin1 "RETRIEVE_FOLDER_STATUS\n") ∧
      trimmed (exampleEnv.fromUtf8 (latin1 "RETRIEVE_FOLDER_STATUS\n")) =
        RETRIEVE_FOLDER_STATUS ∧
      exampleEnv.fromUtf8 (latin1 "RETRIEVE_FOLDER_STATUS:\n") =
        RETRIEVE_FOLDER_STATUS ++ ':' :: [] ++ ['\n'] ∧
      processLine exampleEnv 7 (latin1 "RETRIEVE_FOLDER_STATUS\n") =
        processLine exampleEnv 7 (latin1 "RETRIEVE_FOLDER_STATUS:\n") :=
  ⟨rfl, by decide, by decide, by decide,
    (bare_command_has_empty_argument exampleEnv 7 Method.command_RETRIEVE_FOLDER_STATUS
      RETRIEVE_FOLDER_STATUS (latin1 "RETRIEVE_FOLDER_STATUS\n") rfl (by decide)
      (by decide)).2 (latin1 "RETRIEVE_FOLDER_STATUS:\n") (by decide)⟩

/-! ## The listener list -/

theorem onLostConnection_listeners (s : SocketApi) (socket : QLocalSocket) :
    (onLostConnection s (some socket))._listeners =
      s._listeners.filter (fun current => current != socket) := rfl

theorem filter_ne_of_not_mem (l : List QLocalSocket) (socket : QLocalSocket)
    (h : socket ∉ l) : l.filter (fun current => current != socket) = l := by
  rw [List.filter_eq_self]
  intro a ha
  have : a ≠ socket := fun e => h (e ▸ ha)
  simpa using this

/-- C15: taking a connection out of the listener list is idempotent: for a
connection that is not in the list `onLostConnection` leaves the server as it
is, and handling the same disconnect twice leaves what handling it once
leaves. -/
theorem onLostConnection_idempotent (s : SocketApi) (socket : QLocalSocket) :
    (socket ∉ s._listeners → onLostConnection s (some socket) = s) ∧
      onLostConnection (onLostConnection s (some socket)) (some socket) =
        onLostConnection s (some socket) ∧
      socket ∉ (onLostConnection s (some socket))._listeners := by
  refine ⟨?_, ?_, ?_⟩
  · intro h
    cases s with
    | mk listeners buffer =>
      simp only [onLostConnection]
      rw [filter_ne_of_not_mem listeners socket h]
  · cases s with
    | mk listeners buffer =>
      simp only [onLostConnection, List.filter_filter, Bool.and_self]
  · rw [onLostConnection_listeners]
    simp [List.mem_filter]

/-- C15, witness: the socket `8` is not a listener of the example server. -/
theorem onLostConnection_idempotent_witness :
    8 ∉ (exampleServer [])._listeners ∧
      (onLostConnection (exampleServer []) (some 8))._listeners = [7] :=
  ⟨by decide,
    congrArg SocketApi._listeners
      ((onLostConnection_idempotent (exampleServer []) 8).1 (by decide))⟩

/-- C17: with a null socket both handlers return at once: nothing is written,
no folder is resolved, no directory is listed and no status is queried. -/
theorem null_socket_handlers_do_nothing (env : Env) (argument : QString) :
    command_RETRIEVE_FOLDER_STATUS env argument none = [] ∧
      command_RETRIEVE_FILE_STATUS env argument none = [] :=
  ⟨rfl, rfl⟩

/-- C20: with a resolved owning folder `command_RETRIEVE_FILE_STATUS` makes its one
status query for the argument without its first `folder.path.length`
characters; when the root path of the folder begins the argument, the root
path followed by the queried path is the argument, and when the argument is
not longer than the root path the queried path is empty. -/
theorem file_status_queries_path_after_root (env : Env) (argument : QString)
    (socket : QLocalSocket) (folder : Folder) (h : env.folderForPath argument = some folder) :
    (∃ code, command_RETRIEVE_FILE_STATUS env argument (some socket) =
      [Event.folderForPath argument,
        Event.fileStatus folder.path (argument.drop folder.path.length),
        Event.write socket (env.toUtf8 (statusLine code argument))]) ∧
    (∀ rest, argument = folder.path ++ rest →
      folder.path ++ argument.drop folder.path.length = argument) ∧
    (argument.length ≤ folder.path.length → argument.drop folder.path.length = []) := by
  refine ⟨⟨_, file_handler_events env argument socket folder h⟩, ?_, ?_⟩
  · intro rest hrest
    rw [hrest, List.drop_left]
  · intro hlen
    exact List.drop_eq_nil_of_le hlen

/-- C20, witness: `/sync/root/doc.txt` under the folder with root `/sync/root`. -/
theorem file_status_queries_path_after_root_witness :
    exampleEnv.folderForPath "/sync/root/doc.txt".toList = some exampleFolder ∧
      "/sync/root/doc.txt".toList = exampleFolder.path ++ "/doc.txt".toList ∧
      exampleFolder.path ++ "/sync/root/doc.txt".toList.drop exampleFolder.path.length =
        "/sync/root/doc.txt".toList :=
  ⟨rfl, by decide,
    (file_status_queries_path_after_root exampleEnv "/sync/root/doc.txt".toList 7 exampleFolder
      rfl).2.1 "/doc.txt".toList (by decide)⟩

theorem mem_listeners_run (env : Env) (socket : QLocalSocket) :
    ∀ (actions : List Action) (s : SocketApi),
      socket ∈ (run env s actions).1._listeners ↔
        isLiveFrom socket (decide (socket ∈ s._listeners)) actions = true := by
  intro actions
  induction actions with
  | nil => intro s; simp [run, isLiveFrom]
  | cons a rest ih =>
    intro s
    rw [run]
    rw [ih]
    cases a with
    | newConnection pending =>
      cases pending with
      | none => rfl
      | some accepted =>
        have : decide (socket ∈ (step env s (Action.newConnection (some accepted))).1._listeners) =
            (if accepted = socket then true else decide (socket ∈ s._listeners)) := by
          simp only [step, slotNewConnection, List.mem_append, List.mem_singleton]
          by_cases e : accepted = socket
          · simp [e]
          · have e' : ¬ socket = accepted := fun x => e x.symm
            simp [e, e']
        rw [this]; rfl
    | disconnected sender =>
      cases sender with
      | none => rfl
      | some lost =>
        have : decide (socket ∈ (step env s (Action.disconnected (some lost))).1._listeners) =
            (if lost = socket then false else decide (socket ∈ s._listeners)) := by
          simp only [step, onLostConnection, List.mem_filter]
          by_cases e : lost = socket
          · simp [e]
          · have e' : ¬ socket = lost := fun x => e x.symm
            simp [e, e']
        rw [this]; rfl
    | readyRead sender chunk => rfl
    | folderSyncStateChange folder => rfl

theorem nodup_listeners_run (env : Env) :
    ∀ (actions : List Action) (s : SocketApi), admissible env s actions = true →
      s._listeners.Nodup → (run env s actions).1._listeners.Nodup := by
  intro actions
  induction actions with
  | nil => intro s _ h; exact h
  | cons a rest ih =>
    intro s hadm hnodup
    have hadm : acceptsNew s a = true ∧ admissible env (step env s a).1 rest = true := by
      simpa [admissible] using hadm
    rw [run]
    apply ih _ hadm.2
    cases a with
    | newConnection pending =>
      cases pending with
      | none => exact hnodup
      | some accepted =>
        have hnot : accepted ∉ s._listeners := by
          have := hadm.1
          simpa [acceptsNew] using this
        simp only [step, slotNewConnection]
        rw [List.nodup_append]
        refine ⟨hnodup, List.nodup_singleton _, ?_⟩
        intro x hx hx'
        rw [List.mem_singleton] at hx'
        exact hnot (hx' ▸ hx)
    | disconnected sender =>
      cases sender with
      | none => exact hnodup
      | some lost => exact hnodup.filter _
    | readyRead sender chunk => exact hnodup
    | folderSyncStateChange folder => exact hnodup

theorem count_of_nodup (l : List QLocalSocket) (h : l.Nodup) (socket : QLocalSocket) :
    l.count socket = if socket ∈ l then 1 else 0 := by
  by_cases hm : socket ∈ l
  · rw [if_pos hm]; exact List.count_eq_one_of_mem h hm
  · rw [if_neg hm]; exact List.count_eq_zero_of_not_mem hm

theorem slotSyncStateChanged_events (env : Env) (s : SocketApi) (folder : QString) :
    slotSyncStateChanged env s folder =
      s._listeners.map (fun current => Event.write current (env.toUtf8 "UPDATE_VIEW\n".toList)) := by
  unfold slotSyncStateChanged broadcastMessage
  induction s._listeners with
  | nil => rfl
  | cons c cs ih =>
    rw [List.flatMap_cons, ih]
    rfl

theorem writes_map_write (l : List QLocalSocket) (data : QByteArray) :
    writes (l.map (fun current => Event.write current data)) = l.map (fun current => (current, data)) := by
  induction l with
  | nil => rfl
  | cons c cs ih =>
    simp only [List.map_cons]
    rw [← ih]
    rfl

theorem count_map_pair (l : List QLocalSocket) (data : QByteArray) (socket : QLocalSocket) :
    (l.map (fun current => (current, data))).count (socket, data) = l.count socket := by
  induction l with
  | nil => rfl
  | cons c cs ih =>
    simp only [List.map_cons, List.count_cons, ih]
    by_cases e : c = socket
    · simp [e]
    · simp [e]

/-- The listener list of a reached server: no socket twice, and exactly the
live ones. -/
theorem reached_listeners (env : Env) (platform : Platform) (localFile : QString)
    (actions : List Action)
    (h : admissible env (SocketApi.SocketApi platform localFile).1 actions = true) :
    (reached env platform localFile actions)._listeners.Nodup ∧
      ∀ socket, socket ∈ (reached env platform localFile actions)._listeners ↔
        isLive actions socket = true := by
  constructor
  · exact nodup_listeners_run env actions _ h List.nodup_nil
  · intro socket
    unfold reached isLive
    rw [mem_listeners_run]
    rfl

/-- C13: in every server state reached from the construction by signals that
accept only new sockets, and for every payload, `slotSyncStateChanged` does
nothing but write `UPDATE_VIEW\n` once to each entry of the listener list; the
list holds each socket at most once and exactly the sockets that were accepted
and not disconnected since, so a live connection gets the message once and a
connection whose disconnect has been handled gets nothing. -/
theorem sync_state_change_broadcasts_update_view (env : Env) (platform : Platform)
    (localFile : QString) (actions : List Action) (folder : QString)
    (h : admissible env (SocketApi.SocketApi platform localFile).1 actions = true) :
    slotSyncStateChanged env (reached env platform localFile actions) folder =
        (reached env platform localFile actions)._listeners.map
          (fun current => Event.write current (env.toUtf8 "UPDATE_VIEW\n".toList)) ∧
      (∀ socket, socket ∈ (reached env platform localFile actions)._listeners ↔
        isLive actions socket = true) ∧
      ∀ socket,
        (writes (slotSyncStateChanged env (reached env platform localFile actions) folder)).count
            (socket, env.toUtf8 "UPDATE_VIEW\n".toList) =
          (if isLive actions socket = true then 1 else 0) ∧
        (isLive actions socket = false →
          ∀ data, (socket, data) ∉
            writes (slotSyncStateChanged env (reached env platform localFile actions) folder)) := by
  obtain ⟨hnodup, hmem⟩ := reached_listeners env platform localFile actions h
  refine ⟨slotSyncStateChanged_events env _ folder, hmem, ?_⟩
  intro socket
  rw [slotSyncStateChanged_events, writes_map_write]
  constructor
  · rw [count_map_pair, count_of_nodup _ hnodup]
    simp only [hmem]
  · intro hdead data hin
    rw [List.mem_map] at hin
    obtain ⟨c, hc, hpair⟩ := hin
    have hcs : c = socket := (Prod.mk.inj hpair).1
    rw [hcs, hmem, hdead] at hc
    exact Bool.false_ne_true hc

/-- C13, witness: two clients connect, a third connects and disconnects, then
the sync state changes. -/
theorem sync_state_change_broadcasts_update_view_witness :
    admissible exampleEnv (SocketApi.SocketApi busyPlatform []).1
        [Action.newConnection (some 1), Action.newConnection (some 2),
          Action.newConnection (some 3), Action.disconnected (some 3)] = true ∧
      slotSyncStateChanged exampleEnv (reached exampleEnv busyPlatform []
        [Action.newConnection (some 1), Action.newConnection (some 2),
          Action.newConnection (some 3), Action.disconnected (some 3)]) "/sync/root".toList =
        [Event.write 1 (latin1 "UPDATE_VIEW\n"), Event.write 2 (latin1 "UPDATE_VIEW\n")] :=
  ⟨by decide,
    ((sync_state_change_broadcasts_update_view exampleEnv busyPlatform []
      [Action.newConnection (some 1), Action.newConnection (some 2),
        Action.newConnection (some 3), Action.disconnected (some 3)] "/sync/root".toList
      (by decide)).1).trans (by decide)⟩

/-- C14: after every sequence of signals in which only new sockets are
accepted, the listener list holds exactly the sockets that were accepted and
not disconnected since, each of them once; reading from a socket and
broadcasting leave the list as it is. -/
theorem listeners_are_the_live_connections (env : Env) (platform : Platform)
    (localFile : QString) (actions : List Action)
    (h : admissible env (SocketApi.SocketApi platform localFile).1 actions = true) :
    (reached env platform localFile actions)._listeners.Nodup ∧
      (∀ socket, (reached env platform localFile actions)._listeners.count socket =
        if isLive actions socket = true then 1 else 0) ∧
      (∀ (s : SocketApi) (socket : QLocalSocket) (chunk : QByteArray),
        (step env s (Action.readyRead socket chunk)).1._listeners = s._listeners) ∧
      (∀ (s : SocketApi) (folder : QString),
        (step env s (Action.folderSyncStateChange folder)).1._listeners = s._listeners) ∧
      (∀ (s : SocketApi) (message : QString),
        writes (broadcastMessage env s message) =
          s._listeners.map (fun current => (current, env.toUtf8 (message ++ ['\n'])))) := by
  obtain ⟨hnodup, hmem⟩ := reached_listeners env platform localFile actions h
  refine ⟨hnodup, ?_, fun _ _ _ => rfl, fun _ _ => rfl, ?_⟩
  · intro socket
    rw [count_of_nodup _ hnodup]
    simp only [hmem]
  · intro s message
    unfold broadcastMessage
    induction s._listeners with
    | nil => rfl
    | cons c cs ih =>
      rw [List.flatMap_cons, writes_append, ih]
      rfl

/-- C14, witness: accepts, a read, a broadcast and a disconnect. -/
theorem listeners_are_the_live_connections_witness :
    admissible exampleEnv (SocketApi.SocketApi busyPlatform []).1
        [Action.newConnection (some 1), Action.newConnection (some 2),
          Action.readyRead 1 (latin1 "RETRIEVE_FILE_STATUS:/a\n"),
          Action.folderSyncStateChange [], Action.disconnected (some 1),
          Action.newConnection none] = true ∧
      (reached exampleEnv busyPlatform []
        [Action.newConnection (some 1), Action.newConnection (some 2),
          Action.readyRead 1 (latin1 "RETRIEVE_FILE_STATUS:/a\n"),
          Action.folderSyncStateChange [], Action.disconnected (some 1),
          Action.newConnection none])._listeners.count 2 = 1 :=
  ⟨by decide,
    ((listeners_are_the_live_connections exampleEnv busyPlatform []
      [Action.newConnection (some 1), Action.newConnection (some 2),
        Action.readyRead 1 (latin1 "RETRIEVE_FILE_STATUS:/a\n"),
        Action.folderSyncStateChange [], Action.disconnected (some 1),
        Action.newConnection none] (by decide)).2.1 2).trans (by decide)⟩

/-! ## Chunks and sequences of lines -/

theorem slotReadSocket_buffer (env : Env) (s : SocketApi) (socket : QLocalSocket) :
    (slotReadSocket env s socket).1.buffer socket =
      (slotReadSocketLoop env socket (s.buffer socket).length (s.buffer socket)).1 := by
  simp [slotReadSocket]

theorem withBuffer_buffer (s : SocketApi) (socket : QLocalSocket) (rest : QByteArray) :
    (s.withBuffer socket rest).buffer socket = rest := by
  simp [SocketApi.withBuffer]

/-- Bytes without a line feed stay in the buffer and no line is processed. -/
theorem receive_no_line (env : Env) (s : SocketApi) (socket : QLocalSocket)
    (chunk : QByteArray) (h : 10 ∉ s.buffer socket ++ chunk) :
    (receive env s socket chunk).2 = [] ∧
      (receive env s socket chunk).1.buffer socket = s.buffer socket ++ chunk := by
  unfold receive
  constructor
  · simp only [slotReadSocket, withBuffer_buffer]
    rw [loop_no_line env socket _ _ h]
  · rw [slotReadSocket_buffer, withBuffer_buffer, loop_no_line env socket _ _ h]

/-- The bytes that complete the one buffered line make the server process it,
and the buffer is empty afterwards. -/
theorem receive_last_line (env : Env) (s : SocketApi) (socket : QLocalSocket)
    (chunk l : QByteArray) (hl : 10 ∉ l) (h : s.buffer socket ++ chunk = l ++ [10]) :
    (receive env s socket chunk).2 = processLine env socket (l ++ [10]) ∧
      (receive env s socket chunk).1.buffer socket = [] := by
  unfold receive
  have hbuf : (s.withBuffer socket (s.buffer socket ++ chunk)).buffer socket = l ++ [10] := by
    rw [withBuffer_buffer, h]
  constructor
  · exact slotReadSocket_last_line env _ socket l hl hbuf
  · rw [slotReadSocket_buffer, hbuf, loop_line env socket _ l [] hl (le_refl _)]
    rfl

theorem receive_nothing (env : Env) (s : SocketApi) (socket : QLocalSocket)
    (h : s.buffer socket = []) : (receive env s socket []).2 = [] := by
  have := (receive_no_line env s socket [] (by simp [h])).1
  exact this

/-- The two ways to cut a line with its line feed in two chunks: inside the line,
or after the line feed. -/
theorem split_line (l a b : QByteArray) (hl : 10 ∉ l) (h : a ++ b = l ++ [10]) :
    (10 ∉ a ∧ ∃ rest, l = a ++ rest ∧ b = rest ++ [10]) ∨ (a = l ++ [10] ∧ b = []) := by
  rw [List.append_eq_append_iff] at h
  rcases h with ⟨a', h1, h2⟩ | ⟨c', h1, h2⟩
  · left
    refine ⟨?_, a', h1, h2⟩
    intro hin
    exact hl (by rw [h1]; exact List.mem_append_left _ hin)
  · cases c' with
    | nil =>
      left
      simp only [List.append_nil, List.nil_append] at h1 h2
      exact ⟨h1 ▸ hl, [], by simp [h1], by simp [h2]⟩
    | cons x xs =>
      right
      have hx : 10 = x ∧ [] = xs ++ b := by
        simpa using h2
      have hxs : xs = [] ∧ b = [] := by
        have := hx.2.symm
        simpa using this
      refine ⟨?_, hxs.2⟩
      rw [h1, ← hx.1, hxs.1]

/-- C11: a line cut in two chunks `a` and `b` at any position and delivered to a
socket with nothing buffered: while no line feed has arrived nothing is
dispatched, the two deliveries together have exactly the events of the
delivery of `a ++ b` in one chunk, which are the events of the one line, and
the buffer is empty afterwards; for a command line that is exactly one
invocation, made when the line feed arrives. -/
theorem chunked_line_is_dispatched_once (env : Env) (s : SocketApi) (socket : QLocalSocket)
    (l a b : QByteArray) (hl : 10 ∉ l) (hsplit : a ++ b = l ++ [10])
    (hbuf : s.buffer socket = []) :
    (10 ∉ a → (receive env s socket a).2 = []) ∧
      (run env s [Action.readyRead socket a, Action.readyRead socket b]).2 =
        (receive env s socket (a ++ b)).2 ∧
      (receive env s socket (a ++ b)).2 = processLine env socket (l ++ [10]) ∧
      (run env s [Action.readyRead socket a, Action.readyRead socket b]).1.buffer socket = [] ∧
      (∀ (m : Method) (CMD ARG : QString), m.command = some CMD →
        env.fromUtf8 (l ++ [10]) = CMD ++ ':' :: ARG ++ ['\n'] →
        invocations (run env s [Action.readyRead socket a, Action.readyRead socket b]).2 =
            [(m, trimmed ARG, socket)] ∧
          (10 ∉ a →
            invocations (receive env (receive env s socket a).1 socket b).2 =
              [(m, trimmed ARG, socket)])) := by
  have hone : (receive env s socket (a ++ b)).2 = processLine env socket (l ++ [10]) :=
    (receive_last_line env s socket (a ++ b) l hl (by rw [hbuf, hsplit]; rfl)).1
  have hrun : (run env s [Action.readyRead socket a, Action.readyRead socket b]).2 =
      (receive env s socket a).2 ++ (receive env (receive env s socket a).1 socket b).2 := by
    simp [run, step]
  have hrunbuf : (run env s [Action.readyRead socket a, Action.readyRead socket b]).1 =
      (receive env (receive env s socket a).1 socket b).1 := by
    simp [run, step]
  have hfirst : 10 ∉ a → (receive env s socket a).2 = [] ∧
      (receive env (receive env s socket a).1 socket b).2 = processLine env socket (l ++ [10]) ∧
      (receive env (receive env s socket a).1 socket b).1.buffer socket = [] := by
    intro ha
    have h1 := receive_no_line env s socket a (by rw [hbuf]; simpa using ha)
    rw [hbuf, List.nil_append] at h1
    have h2 := receive_last_line env (receive env s socket a).1 socket b l hl
      (by rw [h1.2, hsplit])
    exact ⟨h1.1, h2.1, h2.2⟩
  have htwo : (run env s [Action.readyRead socket a, Action.readyRead socket b]).2 =
      processLine env socket (l ++ [10]) ∧
      (run env s [Action.readyRead socket a, Action.readyRead socket b]).1.buffer socket =
        [] := by
    rw [hrun, hrunbuf]
    rcases split_line l a b hl hsplit with ⟨ha, _⟩ | ⟨ha, hb⟩
    · obtain ⟨h1, h2, h3⟩ := hfirst ha
      rw [h1, h2]
      exact ⟨rfl, h3⟩
    · subst hb
      have h1 := receive_last_line env s socket a l hl (by rw [hbuf, ha]; rfl)
      have h2 := receive_no_line env (receive env s socket a).1 socket []
        (by rw [h1.2]; simp)
      rw [h1.1, h2.1, h2.2, h1.2]
      exact ⟨by simp, rfl⟩
  refine ⟨fun ha => (hfirst ha).1, ?_, hone, htwo.2, ?_⟩
  · rw [htwo.1, hone]
  · intro m CMD ARG hm hline
    have hinv : invocations (processLine env socket (l ++ [10])) = [(m, trimmed ARG, socket)] := by
      rw [processLine_command_line env socket m CMD ARG _ hm hline, invocations_invoke,
        invocations_handlerEvents]
    refine ⟨by rw [htwo.1, hinv], fun ha => ?_⟩
    rw [(hfirst ha).2.1, hinv]

/-- C11, witness: a file request cut after `RETRIEVE_FI`. -/
theorem chunked_line_is_dispatched_once_witness :
    10 ∉ latin1 "RETRIEVE_FILE_STATUS:/sync/root/doc.txt" ∧
      latin1 "RETRIEVE_FI" ++ latin1 "LE_STATUS:/sync/root/doc.txt\n" =
        latin1 "RETRIEVE_FILE_STATUS:/sync/root/doc.txt" ++ [10] ∧
      (exampleServer []).buffer 7 = [] ∧
      (run exampleEnv (exampleServer []) [Action.readyRead 7 (latin1 "RETRIEVE_FI"),
        Action.readyRead 7 (latin1 "LE_STATUS:/sync/root/doc.txt\n")]).2 =
        [Event.invoke Method.command_RETRIEVE_FILE_STATUS "/sync/root/doc.txt".toList 7,
          Event.folderForPath "/sync/root/doc.txt".toList,
          Event.fileStatus "/sync/root".toList "/doc.txt".toList,
          Event.write 7 (latin1 "STATUS:OK:/sync/root/doc.txt\n")] :=
  ⟨by decide, by decide, rfl,
    ((chunked_line_is_dispatched_once exampleEnv (exampleServer []) 7
      (latin1 "RETRIEVE_FILE_STATUS:/sync/root/doc.txt") (latin1 "RETRIEVE_FI")
      (latin1 "LE_STATUS:/sync/root/doc.txt\n") (by decide) (by decide) rfl).2.1).trans
      (by decide)⟩

theorem joinLines_cons (line : QByteArray) (lines : List QByteArray) :
    joinLines (line :: lines) = line ++ 10 :: joinLines lines := by
  simp [joinLines]

/-- The events of `slotReadSocket` on a buffer of complete lines: those of the
first line, then those of the second, and so on. -/
theorem slotReadSocket_lines (env : Env) (socket : QLocalSocket) :
    ∀ (lines : List QByteArray) (s : SocketApi), (∀ line ∈ lines, 10 ∉ line) →
      s.buffer socket = joinLines lines →
      (slotReadSocket env s socket).2 =
          lines.flatMap (fun line => processLine env socket (line ++ [10])) ∧
        (slotReadSocket env s socket).1.buffer socket = [] := by
  intro lines
  induction lines with
  | nil =>
    intro s _ hbuf
    have hbuf' : s.buffer socket = [] := hbuf
    constructor
    · simp [slotReadSocket, hbuf', slotReadSocketLoop]
    · rw [slotReadSocket_buffer, hbuf']; rfl
  | cons line rest ih =>
    intro s hlines hbuf
    rw [joinLines_cons] at hbuf
    have hline : 10 ∉ line := hlines line (by simp)
    have hrest := ih (s.withBuffer socket (joinLines rest))
      (fun l hl => hlines l (by simp [hl])) (withBuffer_buffer _ _ _)
    rw [slotReadSocket_line env s socket line (joinLines rest) hline hbuf]
    exact ⟨by rw [List.flatMap_cons, hrest.1], hrest.2⟩

theorem writes_flatMap {α : Type} (l : List α) (f : α → List Event) :
    writes (l.flatMap f) = l.flatMap (fun x => writes (f x)) := by
  induction l with
  | nil => rfl
  | cons x xs ih => rw [List.flatMap_cons, List.flatMap_cons, writes_append, ih]

theorem invocations_flatMap {α : Type} (l : List α) (f : α → List Event) :
    invocations (l.flatMap f) = l.flatMap (fun x => invocations (f x)) := by
  induction l with
  | nil => rfl
  | cons x xs ih => rw [List.flatMap_cons, List.flatMap_cons, invocations_append, ih]

/-- C12: with complete lines buffered on a socket, the events of `slotReadSocket`
are the events of the first line, then those of the second, and so on to the
last: every handler is through before the next line is read, and the
invocations and the responses come in the order of the lines; nothing is left
in the buffer. -/
theorem buffered_lines_are_dispatched_in_order (env : Env) (s : SocketApi)
    (socket : QLocalSocket) (lines : List QByteArray) (hlines : ∀ line ∈ lines, 10 ∉ line)
    (hbuf : s.buffer socket = joinLines lines) :
    (slotReadSocket env s socket).2 =
        lines.flatMap (fun line => processLine env socket (line ++ [10])) ∧
      invocations (slotReadSocket env s socket).2 =
        lines.flatMap (fun line => invocations (processLine env socket (line ++ [10]))) ∧
      writes (slotReadSocket env s socket).2 =
        lines.flatMap (fun line => writes (processLine env socket (line ++ [10]))) ∧
      (slotReadSocket env s socket).1.buffer socket = [] := by
  obtain ⟨h1, h2⟩ := slotReadSocket_lines env socket lines s hlines hbuf
  refine ⟨h1, ?_, ?_, h2⟩
  · rw [h1, invocations_flatMap]
  · rw [h1, writes_flatMap]

/-- C12, witness: a file request, an unknown command and a folder request in one
buffer. -/
theorem buffered_lines_are_dispatched_in_order_witness :
    (∀ line ∈ [latin1 "RETRIEVE_FILE_STATUS:/sync/root/doc.txt", latin1 "FOO:1",
        latin1 "RETRIEVE_FOLDER_STATUS:/elsewhere"], 10 ∉ line) ∧
      writes (slotReadSocket exampleEnv (exampleServer (joinLines
        [latin1 "RETRIEVE_FILE_STATUS:/sync/root/doc.txt", latin1 "FOO:1",
          latin1 "RETRIEVE_FOLDER_STATUS:/elsewhere"])) 7).2 =
        [(7, latin1 "STATUS:OK:/sync/root/doc.txt\n"), (7, latin1 "STATUS:NOP:/elsewhere\n")] :=
  ⟨by decide,
    ((buffered_lines_are_dispatched_in_order exampleEnv (exampleServer (joinLines
        [latin1 "RETRIEVE_FILE_STATUS:/sync/root/doc.txt", latin1 "FOO:1",
          latin1 "RETRIEVE_FOLDER_STATUS:/elsewhere"])) 7
      [latin1 "RETRIEVE_FILE_STATUS:/sync/root/doc.txt", latin1 "FOO:1",
        latin1 "RETRIEVE_FOLDER_STATUS:/elsewhere"] (by decide) rfl).2.2.1).trans (by decide)⟩

/-! ## Construction -/

/-- C16, as the specification words it, fails: on a platform where `listen`
returns false the constructor still returns a server, tied to
`newConnection()` and to `folderSyncStateChange(QString)`. -/
theorem failed_listen_is_fatal_counterexample :
    ¬ (busyPlatform.listen (socketPath busyPlatform "/tmp/socket".toList) = false →
        wired (SocketApi.SocketApi busyPlatform "/tmp/socket".toList).2 = false) := by
  decide

/-- C16, amended: when `listen` returns false the constructor prints
`can't start server` with the socket path and goes on as when `listen`
succeeds: it returns a server without listeners, tied to `newConnection()` and
to `folderSyncStateChange(QString)`, on which a sync-state change writes
nothing. -/
theorem failed_listen_is_only_logged (platform : Platform) (localFile : QString)
    (h : platform.listen (socketPath platform localFile) = false) :
    (SocketApi.SocketApi platform localFile).2 =
        [Setup.removeServer (socketPath platform localFile),
          Setup.listen (socketPath platform localFile),
          Setup.debug "can't start server".toList (socketPath platform localFile),
          Setup.connect "newConnection()".toList Method.slotNewConnection,
          Setup.connect "folderSyncStateChange(QString)".toList Method.slotSyncStateChanged] ∧
      wired (SocketApi.SocketApi platform localFile).2 = true ∧
      (SocketApi.SocketApi platform localFile).1._listeners = [] ∧
      ∀ (env : Env) (folder : QString),
        slotSyncStateChanged env (SocketApi.SocketApi platform localFile).1 folder = [] := by
  have hsetup : (SocketApi.SocketApi platform localFile).2 =
      [Setup.removeServer (socketPath platform localFile),
        Setup.listen (socketPath platform localFile),
        Setup.debug "can't start server".toList (socketPath platform localFile),
        Setup.connect "newConnection()".toList Method.slotNewConnection,
        Setup.connect "folderSyncStateChange(QString)".toList Method.slotSyncStateChanged] := by
    simp only [SocketApi.SocketApi, h]
    rfl
  refine ⟨hsetup, ?_, rfl, fun _ _ => rfl⟩
  rw [hsetup]
  simp [wired]

/-- C16, amended, witness: the platform on which `listen` fails. -/
theorem failed_listen_is_only_logged_witness :
    busyPlatform.listen (socketPath busyPlatform "/tmp/socket".toList) = false ∧
      wired (SocketApi.SocketApi busyPlatform "/tmp/socket".toList).2 = true :=
  ⟨rfl, (failed_listen_is_only_logged busyPlatform "/tmp/socket".toList rfl).2.1⟩

/-! ## Responses are single lines -/

theorem exists_first_line (buffer : QByteArray) (h : 10 ∈ buffer) :
    ∃ l rest, buffer = l ++ 10 :: rest ∧ 10 ∉ l := by
  obtain ⟨pre, x, post, h1, h2, h3⟩ :=
    first_failure (fun b : Nat => b ≠ 10) buffer ⟨10, h, by simp⟩
  have hx : x = 10 := by simpa using h3
  subst hx
  exact ⟨pre, post, h1, fun hin => h2 10 hin rfl⟩

/-- Every event of the read loop is an event of a line that holds no line feed
before its last byte. -/
theorem loop_events_mem (env : Env) (socket : QLocalSocket) (e : Event) :
    ∀ (fuel : Nat) (buffer : QByteArray), e ∈ (slotReadSocketLoop env socket fuel buffer).2 →
      ∃ raw, 10 ∉ raw ∧ e ∈ processLine env socket (raw ++ [10]) := by
  intro fuel
  induction fuel with
  | zero => intro buffer h; simp [slotReadSocketLoop] at h
  | succ n ih =>
    intro buffer h
    cases hc : canReadLine buffer with
    | false => simp [slotReadSocketLoop, hc] at h
    | true =>
      obtain ⟨l, rest, hbuf, hl⟩ := exists_first_line buffer ((canReadLine_iff buffer).mp hc)
      subst hbuf
      simp only [slotReadSocketLoop, hc, if_true, readLine_append l rest hl,
        List.mem_append] at h
      rcases h with h | h
      · exact ⟨l, hl, h⟩
      · exact ih rest h

theorem rdropWhile_append_rest {α : Type} (p : α → Bool) (l : List α) :
    ∃ rest, l = l.rdropWhile p ++ rest := by
  refine ⟨(l.reverse.takeWhile p).reverse, ?_⟩
  unfold List.rdropWhile
  rw [← List.reverse_append, List.takeWhile_append_dropWhile, List.reverse_reverse]

theorem mem_trimmed (c : Char) (text : QString) (h : c ∈ trimmed text) : c ∈ text := by
  unfold trimmed at h
  obtain ⟨rest, hrest⟩ := rdropWhile_append_rest isSpace (text.dropWhile isSpace)
  have h1 : c ∈ text.dropWhile isSpace := by
    rw [hrest]; exact List.mem_append_left _ h
  rw [← List.takeWhile_append_dropWhile isSpace text]
  exact List.mem_append_right _ h1

/-- A text whose only line feed, if any, is its last character has no line feed
left once it is trimmed. -/
theorem newline_not_mem_trimmed (text : QString) (h : '\n' ∉ text.dropLast) :
    '\n' ∉ trimmed text := by
  intro hin
  have hne : trimmed text ≠ [] := List.ne_nil_of_mem hin
  have hlast : ¬ isSpace ((trimmed text).getLast hne) = true :=
    List.rdropWhile_last_not isSpace (text.dropWhile isSpace) hne
  obtain ⟨rest, hrest⟩ := rdropWhile_append_rest isSpace (text.dropWhile isSpace)
  have htext : text = text.takeWhile isSpace ++
      ((trimmed text).dropLast ++ ([(trimmed text).getLast hne] ++ rest)) := by
    rw [← List.append_assoc (trimmed text).dropLast, List.dropLast_append_getLast hne]
    unfold trimmed
    rw [← hrest, List.takeWhile_append_dropWhile]
  have hin2 : '\n' ∈ (trimmed text).dropLast := by
    rw [← List.dropLast_append_getLast hne, List.mem_append] at hin
    rcases hin with hin | hin
    · exact hin
    · exfalso
      rw [List.mem_singleton] at hin
      rw [← hin] at hlast
      exact hlast (by decide)
  have hdl : text.dropLast = text.takeWhile isSpace ++ (trimmed text).dropLast ++
      ([(trimmed text).getLast hne] ++ rest).dropLast := by
    have := congrArg List.dropLast htext
    rw [← List.append_assoc, List.dropLast_append_of_ne_nil _ (by simp)] at this
    exact this
  apply h
  rw [hdl]
  exact List.mem_append_left _ (List.mem_append_right _ hin2)

theorem newline_not_mem_status (code argument : QString)
    (hcode : code = OK ∨ code = NEED_SYNC ∨ code = NOP) (harg : '\n' ∉ argument) :
    '\n' ∉ "STATUS:".toList ++ code ++ [':'] ++ argument := by
  simp only [List.mem_append, not_or]
  refine ⟨⟨⟨by decide, ?_⟩, by decide⟩, harg⟩
  rcases hcode with h | h | h <;> subst h <;> decide

/-- The writes of one line: at most one, a status line for an argument that is
part of the trimmed text of the line. -/
theorem writes_processLine (env : Env) (socket : QLocalSocket) (raw : QByteArray)
    (w : QLocalSocket × QByteArray) (h : w ∈ writes (processLine env socket raw)) :
    ∃ code argument, (code = OK ∨ code = NEED_SYNC ∨ code = NOP) ∧
      (∀ c ∈ argument, c ∈ trimmed (env.fromUtf8 raw)) ∧
      w = (socket, env.toUtf8 (statusLine code argument)) := by
  have hsub : ∀ k, ∀ c ∈ trimmed ((trimmed (env.fromUtf8 raw)).drop k),
      c ∈ trimmed (env.fromUtf8 raw) :=
    fun k c hc => List.mem_of_mem_drop (mem_trimmed c _ hc)
  have hcons : ∀ (m : Method) (a : QString) (l : List Event),
      writes (Event.invoke m a socket :: l) = writes l := fun _ _ _ => rfl
  rw [processLine_eq] at h
  split_ifs at h with h1 h2
  · rw [hcons] at h
    obtain ⟨code, hcode, hw⟩ := writes_handlerEvents env .command_RETRIEVE_FOLDER_STATUS
      RETRIEVE_FOLDER_STATUS rfl
      (trimmed ((trimmed (env.fromUtf8 raw)).drop (RETRIEVE_FOLDER_STATUS.length + 1))) socket
    simp only [handlerEvents] at hw
    rw [hw, List.mem_singleton] at h
    exact ⟨code, _, hcode, hsub _, h⟩
  · rw [hcons] at h
    obtain ⟨code, hcode, hw⟩ := writes_handlerEvents env .command_RETRIEVE_FILE_STATUS
      RETRIEVE_FILE_STATUS rfl
      (trimmed ((trimmed (env.fromUtf8 raw)).drop (RETRIEVE_FILE_STATUS.length + 1))) socket
    simp only [handlerEvents] at hw
    rw [hw, List.mem_singleton] at h
    exact ⟨code, _, hcode, hsub _, h⟩
  · simp [writes] at h

theorem mem_writes (w : QLocalSocket × QByteArray) (events : List Event)
    (h : w ∈ writes events) : Event.write w.1 w.2 ∈ events := by
  induction events with
  | nil => simp [writes] at h
  | cons e es ih =>
    cases e with
    | write socket data =>
      have h' : w = (socket, data) ∨ w ∈ writes es := by
        simpa [writes] using h
      rcases h' with h' | h'
      · rw [h']; exact List.mem_cons_self _ _
      · exact List.mem_cons_of_mem _ (ih h')
    | _ =>
      have h' : w ∈ writes es := by simpa [writes] using h
      exact List.mem_cons_of_mem _ (ih h')

theorem writes_mem (socket : QLocalSocket) (data : QByteArray) (events : List Event)
    (h : Event.write socket data ∈ events) : (socket, data) ∈ writes events := by
  induction events with
  | nil => simp at h
  | cons e es ih =>
    rcases List.mem_cons.mp h with h' | h'
    · rw [← h']; simp [writes]
    · have := ih h'
      cases e <;> simp [writes] at this ⊢ <;> simp [this]

theorem decodeAscii_newline (raw : QByteArray) (h : 10 ∉ raw) :
    '\n' ∉ (decodeAscii (raw ++ [10])).dropLast := by
  have hsmall : ∀ b < 128, Char.ofNat b = '\n' → b = 10 := by decide
  have hd : decodeAscii (raw ++ [10]) = decodeAscii raw ++ ['\n'] := by
    simp [decodeAscii]
  rw [hd, List.dropLast_concat]
  intro hin
  simp only [decodeAscii, List.mem_map] at hin
  obtain ⟨b, hb, hbc⟩ := hin
  by_cases hlt : b < 128
  · rw [if_pos hlt] at hbc
    exact h (hsmall b hlt hbc ▸ hb)
  · rw [if_neg hlt] at hbc
    revert hbc
    decide

theorem encodeAscii_newline (text : QString) (h : '\n' ∉ text) :
    encodeAscii (text ++ ['\n']) = encodeAscii text ++ [10] ∧ 10 ∉ encodeAscii text := by
  constructor
  · simp [encodeAscii]
  · intro hin
    simp only [encodeAscii, List.mem_map] at hin
    obtain ⟨c, hc, hcb⟩ := hin
    by_cases hlt : c.toNat < 128
    · rw [if_pos hlt] at hcb
      have : c = '\n' := by
        rw [← Char.ofNat_toNat c, hcb]
      exact h (this ▸ hc)
    · rw [if_neg hlt] at hcb
      revert hcb
      decide

/-- C18: with a codec that decodes a line without inner line-feed byte to a text
whose only line feed, if any, is its last character, and that encodes a line
feed, and nothing else, as the byte 10, every message that `slotReadSocket`
writes is the encoding of a text without line feed followed by one line feed:
it holds exactly one byte 10, its last. -/
theorem responses_are_single_lines (env : Env) (s : SocketApi) (socket : QLocalSocket)
    (hdec : ∀ raw : QByteArray, 10 ∉ raw → '\n' ∉ (env.fromUtf8 (raw ++ [10])).dropLast)
    (henc : ∀ text : QString, '\n' ∉ text →
      env.toUtf8 (text ++ ['\n']) = env.toUtf8 text ++ [10] ∧ 10 ∉ env.toUtf8 text) :
    ∀ w ∈ writes (slotReadSocket env s socket).2,
      (∃ message, '\n' ∉ message ∧ w = (socket, env.toUtf8 (message ++ ['\n']))) ∧
        w.2.count 10 = 1 ∧ w.2.getLast? = some 10 := by
  intro w hw
  obtain ⟨raw, hraw, hmem⟩ := loop_events_mem env socket _ _ _ (mem_writes w _ hw)
  obtain ⟨code, argument, hcode, harg, hwe⟩ :=
    writes_processLine env socket (raw ++ [10]) w (writes_mem _ _ _ hmem)
  have hnl : '\n' ∉ argument :=
    fun hin => newline_not_mem_trimmed _ (hdec raw hraw) (harg _ hin)
  have hmsg := newline_not_mem_status code argument hcode hnl
  have hdata : w.2 = env.toUtf8 ("STATUS:".toList ++ code ++ [':'] ++ argument) ++ [10] := by
    rw [hwe, ← (henc _ hmsg).1]; rfl
  refine ⟨⟨_, hmsg, hwe⟩, ?_, ?_⟩
  · rw [hdata, List.count_append, List.count_eq_zero_of_not_mem (henc _ hmsg).2]
    rfl
  · rw [hdata, List.getLast?_concat]

/-- C18, witness: the codec of the example world and a request whose path holds
a carriage return. -/
theorem responses_are_single_lines_witness :
    (∀ raw : QByteArray, 10 ∉ raw → '\n' ∉ (exampleEnv.fromUtf8 (raw ++ [10])).dropLast) ∧
      (∀ text : QString, '\n' ∉ text →
        exampleEnv.toUtf8 (text ++ ['\n']) = exampleEnv.toUtf8 text ++ [10] ∧
          10 ∉ exampleEnv.toUtf8 text) ∧
      ∀ w ∈ writes (slotReadSocket exampleEnv
          (exampleServer (latin1 "RETRIEVE_FILE_STATUS:/a\rb\n")) 7).2,
        w.2.count 10 = 1 ∧ w.2.getLast? = some 10 :=
  ⟨decodeAscii_newline, encodeAscii_newline,
    fun w hw => ((responses_are_single_lines exampleEnv
      (exampleServer (latin1 "RETRIEVE_FILE_STATUS:/a\rb\n")) 7
      decodeAscii_newline encodeAscii_newline) w hw).2⟩

/-! ## Whitespace around the parts of a line -/

theorem commandOf_eq (text : QString) :
    commandOf text = (trimmed text).takeWhile (fun c => c != ':') := by
  rw [commandOf, first_split]

theorem argumentOf_eq (text : QString) :
    argumentOf text =
      trimmed ((trimmed text).drop (((trimmed text).takeWhile (fun c => c != ':')).length + 1)) := by
  rw [argumentOf, remove_zero, commandOf_eq]

/-- The events of a line are a function of its command and its argument. -/
theorem processLine_parse (env : Env) (socket : QLocalSocket) (raw : QByteArray) :
    processLine env socket raw =
      if commandOf (env.fromUtf8 raw) = RETRIEVE_FOLDER_STATUS then
        Event.invoke .command_RETRIEVE_FOLDER_STATUS (argumentOf (env.fromUtf8 raw)) socket ::
          command_RETRIEVE_FOLDER_STATUS env (argumentOf (env.fromUtf8 raw)) (some socket)
      else if commandOf (env.fromUtf8 raw) = RETRIEVE_FILE_STATUS then
        Event.invoke .command_RETRIEVE_FILE_STATUS (argumentOf (env.fromUtf8 raw)) socket ::
          command_RETRIEVE_FILE_STATUS env (argumentOf (env.fromUtf8 raw)) (some socket)
      else [] := by
  rw [processLine_eq, argumentOf_eq, commandOf_eq]
  by_cases h1 : (trimmed (env.fromUtf8 raw)).takeWhile (fun c => c != ':') =
      RETRIEVE_FOLDER_STATUS
  · rw [if_pos h1, if_pos h1, h1]
  · rw [if_neg h1, if_neg h1]
    by_cases h2 : (trimmed (env.fromUtf8 raw)).takeWhile (fun c => c != ':') =
        RETRIEVE_FILE_STATUS
    · rw [if_pos h2, if_pos h2, h2]
    · rw [if_neg h2, if_neg h2]

theorem processLine_congr (env : Env) (socket : QLocalSocket) (raw1 raw2 : QByteArray)
    (hc : commandOf (env.fromUtf8 raw1) = commandOf (env.fromUtf8 raw2))
    (ha : argumentOf (env.fromUtf8 raw1) = argumentOf (env.fromUtf8 raw2)) :
    processLine env socket raw1 = processLine env socket raw2 := by
  rw [processLine_parse, processLine_parse, hc, ha]

theorem dropWhile_append_all {α : Type} (p : α → Bool) (a b : List α)
    (h : ∀ x ∈ a, p x = true) : (a ++ b).dropWhile p = b.dropWhile p := by
  induction a with
  | nil => rfl
  | cons x xs ih =>
    rw [List.cons_append, List.dropWhile_cons, if_pos (h x (by simp))]
    exact ih (fun y hy => h y (by simp [hy]))

theorem rdropWhile_append_all {α : Type} (p : α → Bool) (a b : List α)
    (h : ∀ x ∈ b, p x = true) : (a ++ b).rdropWhile p = a.rdropWhile p := by
  unfold List.rdropWhile
  rw [List.reverse_append, dropWhile_append_all p _ _ (fun x hx => h x (List.mem_reverse.mp hx))]

theorem trimmed_eq (text : QString) :
    trimmed text = (text.rdropWhile isSpace).dropWhile isSpace := by
  rw [dropWhile_rdropWhile]; rfl

/-- Whitespace before and after a text does not change what is left of it once
it is trimmed. -/
theorem trimmed_padded (w1 t w3 : QString) (h1 : ∀ c ∈ w1, isSpace c = true)
    (h3 : ∀ c ∈ w3, isSpace c = true) : trimmed (w1 ++ t ++ w3) = trimmed t := by
  rw [trimmed_eq, rdropWhile_append_all isSpace _ _ h3, ← trimmed_eq]
  unfold trimmed
  rw [dropWhile_append_all isSpace _ _ h1]

theorem trimmed_colon (pre rest : QString) :
    trimmed (pre ++ ':' :: rest) =
      pre.dropWhile isSpace ++ ':' :: rest.rdropWhile isSpace := by
  unfold trimmed
  rw [dropWhile_append_cons isSpace _ _ _ (by decide),
    rdropWhile_append_cons isSpace _ _ _ (by decide)]

theorem takeWhile_append_colon (a rest : QString) (h : ':' ∉ a) :
    (a ++ ':' :: rest).takeWhile (fun c => c != ':') = a := by
  induction a with
  | nil => simp [List.takeWhile]
  | cons x xs ih =>
    have hx : x ≠ ':' := fun e => h (by simp [e])
    rw [List.cons_append, List.takeWhile_cons, if_pos (by simpa using hx),
      ih (fun hin => h (by simp [hin]))]

theorem not_mem_dropWhile {α : Type} (p : α → Bool) (x : α) (l : List α) (h : x ∉ l) :
    x ∉ l.dropWhile p := by
  intro hin
  apply h
  rw [← List.takeWhile_append_dropWhile p l]
  exact List.mem_append_right _ hin

/-- The command and the argument of a line with a colon, `pre` holding none. -/
theorem parse_colon (pre rest : QString) (h : ':' ∉ pre) :
    commandOf (pre ++ ':' :: rest) = pre.dropWhile isSpace ∧
      argumentOf (pre ++ ':' :: rest) = trimmed rest := by
  have hc : commandOf (pre ++ ':' :: rest) = pre.dropWhile isSpace := by
    rw [commandOf_eq, trimmed_colon,
      takeWhile_append_colon _ _ (not_mem_dropWhile isSpace _ _ h)]
  refine ⟨hc, ?_⟩
  rw [argumentOf_eq, trimmed_colon,
    takeWhile_append_colon _ _ (not_mem_dropWhile isSpace _ _ h)]
  have hd : (pre.dropWhile isSpace ++ ':' :: rest.rdropWhile isSpace).drop
      ((pre.dropWhile isSpace).length + 1) = rest.rdropWhile isSpace := by
    rw [← List.drop_drop, List.drop_left]
    rfl
  rw [hd, trimmed_rdropWhile]

/-- C19: whitespace added before the command name, directly after the first
colon or at the end of a line changes neither the command nor the argument
that `slotReadSocket` takes from the line, and so none of its events; spaces,
tabs and carriage returns are whitespace, and a line that ends in `\r\n` has
the events of the same line ending in `\n`. -/
theorem whitespace_padding_changes_nothing (env : Env) (socket : QLocalSocket)
    (w1 w2 w3 : QString) (h1 : ∀ c ∈ w1, isSpace c = true) (h2 : ∀ c ∈ w2, isSpace c = true)
    (h3 : ∀ c ∈ w3, isSpace c = true) :
    (∀ (t : QString) (plain padded : QByteArray), env.fromUtf8 plain = t ++ ['\n'] →
      env.fromUtf8 padded = w1 ++ t ++ (w3 ++ ['\n']) →
      commandOf (env.fromUtf8 padded) = commandOf (env.fromUtf8 plain) ∧
        argumentOf (env.fromUtf8 padded) = argumentOf (env.fromUtf8 plain) ∧
        processLine env socket padded = processLine env socket plain) ∧
    (∀ (pre post : QString) (plain padded : QByteArray), ':' ∉ pre →
      env.fromUtf8 plain = pre ++ ':' :: post ++ ['\n'] →
      env.fromUtf8 padded = w1 ++ pre ++ ':' :: (w2 ++ post) ++ (w3 ++ ['\n']) →
      commandOf (env.fromUtf8 padded) = commandOf (env.fromUtf8 plain) ∧
        argumentOf (env.fromUtf8 padded) = argumentOf (env.fromUtf8 plain) ∧
        processLine env socket padded = processLine env socket plain) ∧
    (∀ (t : QString) (plain crlf : QByteArray), env.fromUtf8 plain = t ++ ['\n'] →
      env.fromUtf8 crlf = t ++ ['\r', '\n'] →
      processLine env socket crlf = processLine env socket plain) ∧
    isSpace ' ' = true ∧ isSpace '\t' = true ∧ isSpace '\r' = true := by
  have hnl : ∀ c ∈ ['\n'], isSpace c = true := by decide
  have h3n : ∀ c ∈ w3 ++ ['\n'], isSpace c = true := by
    intro c hc
    rcases List.mem_append.mp hc with h | h
    · exact h3 c h
    · exact hnl c h
  refine ⟨?_, ?_, ?_, by decide, by decide, by decide⟩
  · intro t plain padded hplain hpadded
    have ht : trimmed (env.fromUtf8 padded) = trimmed (env.fromUtf8 plain) := by
      rw [hpadded, hplain, trimmed_padded w1 t _ h1 h3n]
      have := trimmed_padded [] t ['\n'] (by simp) hnl
      rw [List.nil_append] at this
      rw [this]
    have hc : commandOf (env.fromUtf8 padded) = commandOf (env.fromUtf8 plain) := by
      rw [commandOf, commandOf, ht]
    have ha : argumentOf (env.fromUtf8 padded) = argumentOf (env.fromUtf8 plain) := by
      rw [argumentOf, argumentOf, hc, ht]
    exact ⟨hc, ha, processLine_congr env socket _ _ hc ha⟩
  · intro pre post plain padded hpre hplain hpadded
    have hpre1 : ':' ∉ w1 ++ pre := by
      intro hin
      rcases List.mem_append.mp hin with h | h
      · have := h1 ':' h
        revert this; decide
      · exact hpre h
    have hp1 := parse_colon pre (post ++ ['\n']) hpre
    have hp2 := parse_colon (w1 ++ pre) (w2 ++ post ++ (w3 ++ ['\n'])) hpre1
    have e1 : env.fromUtf8 plain = pre ++ ':' :: (post ++ ['\n']) := by
      rw [hplain]; simp
    have e2 : env.fromUtf8 padded = w1 ++ pre ++ ':' :: (w2 ++ post ++ (w3 ++ ['\n'])) := by
      rw [hpadded]; simp
    have hc : commandOf (env.fromUtf8 padded) = commandOf (env.fromUtf8 plain) := by
      rw [e1, e2, hp1.1, hp2.1, dropWhile_append_all isSpace _ _ h1]
    have ha : argumentOf (env.fromUtf8 padded) = argumentOf (env.fromUtf8 plain) := by
      rw [e1, e2, hp1.2, hp2.2]
      have ha1 : trimmed (w2 ++ post ++ (w3 ++ ['\n'])) = trimmed post :=
        trimmed_padded w2 post _ h2 h3n
      have ha2 : trimmed (post ++ ['\n']) = trimmed post := by
        have := trimmed_padded [] post ['\n'] (by simp) hnl
        rw [List.nil_append] at this
        exact this
      rw [ha1, ha2]
    exact ⟨hc, ha, processLine_congr env socket _ _ hc ha⟩
  · intro t plain crlf hplain hcrlf
    have ht : trimmed (env.fromUtf8 crlf) = trimmed (env.fromUtf8 plain) := by
      rw [hcrlf, hplain]
      have a1 := trimmed_padded [] t ['\r', '\n'] (by simp) (by decide)
      have a2 := trimmed_padded [] t ['\n'] (by simp) hnl
      rw [List.nil_append] at a1 a2
      rw [a1, a2]
    have hc : commandOf (env.fromUtf8 crlf) = commandOf (env.fromUtf8 plain) := by
      rw [commandOf, commandOf, ht]
    have ha : argumentOf (env.fromUtf8 crlf) = argumentOf (env.fromUtf8 plain) := by
      rw [argumentOf, argumentOf, hc, ht]
    exact processLine_congr env socket _ _ hc ha

/-- C19, witness: the folder request for `/sync/root` with a tab before the
name, two spaces after the colon and a carriage return at the end. -/
theorem whitespace_padding_changes_nothing_witness :
    (∀ c ∈ "\t".toList, isSpace c = true) ∧ (∀ c ∈ "  ".toList, isSpace c = true) ∧
      (∀ c ∈ "\r".toList, isSpace c = true) ∧
      ':' ∉ RETRIEVE_FOLDER_STATUS ∧
      exampleEnv.fromUtf8 (latin1 "RETRIEVE_FOLDER_STATUS:/sync/root\n") =
        RETRIEVE_FOLDER_STATUS ++ ':' :: "/sync/root".toList ++ ['\n'] ∧
      exampleEnv.fromUtf8 (latin1 "\tRETRIEVE_FOLDER_STATUS:  /sync/root\r\n") =
        "\t".toList ++ RETRIEVE_FOLDER_STATUS ++ ':' :: ("  ".toList ++ "/sync/root".toList) ++
          ("\r".toList ++ ['\n']) ∧
      processLine exampleEnv 7 (latin1 "\tRETRIEVE_FOLDER_STATUS:  /sync/root\r\n") =
        processLine exampleEnv 7 (latin1 "RETRIEVE_FOLDER_STATUS:/sync/root\n") :=
  ⟨by decide, by decide, by decide, by decide, by decide, by decide,
    ((whitespace_padding_changes_nothing exampleEnv 7 "\t".toList "  ".toList "\r".toList
      (by decide) (by decide) (by decide)).2.1 RETRIEVE_FOLDER_STATUS "/sync/root".toList
      (latin1 "RETRIEVE_FOLDER_STATUS:/sync/root\n")
      (latin1 "\tRETRIEVE_FOLDER_STATUS:  /sync/root\r\n")
      (by decide) (by decide) (by decide)).2.2⟩

end Mirall
